import Mathlib

/-!
A verification development for the grade-bot ingestion pipeline
(`src/main.py`): spreadsheet extraction, averaging, grade-multiset
diffing, and the snapshot store with undo, shallowly embedded in Lean.
Python strings are Lean strings (lists of characters), Python ints are
`Int`, Python floats produced by the averaging code are exact rationals
(`Rat`), the sqlite tables are explicit lists, and code that can raise
an exception returns `Option`.
-/

namespace GradeBot

/-! ## Characters and Python `int()` parsing -/

/-- Model of Python's whitespace test used by `str.strip()` / `int()`. -/
def isWsChar (c : Char) : Bool :=
  c = ' ' || c = '\t' || c = '\n' || c = '\r'

/-- Strip whitespace from both ends, as Python `str.strip()`. -/
def trimWs (l : List Char) : List Char :=
  ((l.dropWhile isWsChar).reverse.dropWhile isWsChar).reverse

/-- The decimal digit characters, as rendered by Python `str(int)`. -/
def digitToChar (d : Nat) : Char :=
  if d = 0 then '0' else if d = 1 then '1' else if d = 2 then '2'
  else if d = 3 then '3' else if d = 4 then '4' else if d = 5 then '5'
  else if d = 6 then '6' else if d = 7 then '7' else if d = 8 then '8'
  else if d = 9 then '9' else '*'

/-- Decimal digit value of a character, `none` for non-digits. -/
def charDigit (c : Char) : Option Nat :=
  if c = '0' then some 0 else if c = '1' then some 1 else if c = '2' then some 2
  else if c = '3' then some 3 else if c = '4' then some 4 else if c = '5' then some 5
  else if c = '6' then some 6 else if c = '7' then some 7 else if c = '8' then some 8
  else if c = '9' then some 9 else none

/-- Decimal rendering of a natural number (fuelled structural recursion so
that the kernel can evaluate it; `natChars` supplies enough fuel). -/
def natCharsAux : Nat → Nat → List Char
  | 0, _ => []
  | fuel + 1, n =>
    if n < 10 then [digitToChar n]
    else natCharsAux fuel (n / 10) ++ [digitToChar (n % 10)]

/-- Decimal rendering of a natural number, as Python `str`. -/
def natChars (n : Nat) : List Char := natCharsAux (n + 1) n

/-- Rendering of a Python integer by `str` / an f-string. -/
def intChars (g : Int) : List Char :=
  if g < 0 then '-' :: natChars (-g).toNat else natChars g.toNat

/-- One step of reading a digit run left to right. -/
def digitsStep (acc : Option Nat) (c : Char) : Option Nat :=
  acc.bind fun a => (charDigit c).map fun d => 10 * a + d

/-- Value of a digit string; `none` when empty or containing a non-digit.
Models the digit-run acceptance of Python `int()` (the underscore
digit-grouping feature of Python literals is not modelled; no key built
by this program ever contains one). -/
def digitsVal : List Char → Option Nat
  | [] => none
  | ds => ds.foldl digitsStep (some 0)

/-- Model of Python `int(str)`: strip whitespace, optional sign, digit run. -/
def pyParseInt (l : List Char) : Option Int :=
  match trimWs l with
  | [] => none
  | c :: cs =>
    if c = '-' then (digitsVal cs).map (fun n => -(n : Int))
    else if c = '+' then (digitsVal cs).map (fun n => (n : Int))
    else (digitsVal (c :: cs)).map (fun n => (n : Int))

/-! ## Composite counter keys (`SEP = "||"`, `make_counter`, `parse_counter_key`) -/

/-- `SEP = "||"` from the source. -/
def sepChars : List Char := ['|', '|']

/-- `make_counter`'s key construction `f"{subj}{SEP}{grade}"`. -/
def mkCounterKey (s : String) (g : Int) : String :=
  ⟨s.data ++ sepChars ++ intChars g⟩

/-- Split at the first occurrence of `SEP`, as Python `key.split(SEP, 1)`;
`none` when the separator does not occur (in which case the source's
two-name unpacking raises `ValueError`). -/
def splitOnSep : List Char → Option (List Char × List Char)
  | [] => none
  | c :: cs =>
    if sepChars.isPrefixOf (c :: cs) then some ([], (c :: cs).drop 2)
    else match splitOnSep cs with
         | none => none
         | some (a, b) => some (c :: a, b)

/-- Whether `SEP` occurs somewhere in the character list. -/
def hasSepChars : List Char → Bool
  | [] => false
  | c :: cs => sepChars.isPrefixOf (c :: cs) || hasSepChars cs

/-- `parse_counter_key` from the source; `none` models the `ValueError`
raised when the separator is absent or `int()` fails on the tail. -/
def parse_counter_key (key : String) : Option (String × Int) :=
  match splitOnSep key.data with
  | none => none
  | some (a, b) => (pyParseInt b).map (fun g => (⟨a⟩, g))

/-- A subject string on which the composite key construction is loss-free:
it contains no `"||"` and does not end in `'|'`. -/
def cleanSubj (s : String) : Bool :=
  !hasSepChars s.data && !(s.data.getLast? == some '|')

/-! ## Grade multiset (Python `Counter`) and the differ -/

/-- A Python `Counter` as an insertion-ordered association list
(Python dicts preserve insertion order). -/
abbrev PCounter := List (String × Int)

/-- First-match association lookup (Python dict access). -/
def alookup {β : Type} (a : String) : List (String × β) → Option β
  | [] => none
  | (k, v) :: r => if k = a then some v else alookup a r

/-- `old.get(key, 0)` on a counter. -/
def counterGet (c : PCounter) (k : String) : Int :=
  (alookup k c).getD 0

/-- `c[key] += 1` on a counter: bump in place, or append a fresh key
with count 1 at the end (dict insertion order). -/
def counterIncr (c : PCounter) (k : String) : PCounter :=
  match c with
  | [] => [(k, 1)]
  | (k0, n) :: rest => if k0 = k then (k0, n + 1) :: rest else (k0, n) :: counterIncr rest k

/-- `make_counter` from the source. -/
def make_counter (items : List (String × Int)) : PCounter :=
  items.foldl (fun c p => counterIncr c (mkCounterKey p.1 p.2)) []

/-- The loop body of `diff_new_grades`, before sorting: walk the new
counter in order, keep keys whose count strictly grew, parsing each such
key; `none` models the `ValueError` escaping from `parse_counter_key`. -/
def collectAdded (old : PCounter) : PCounter → Option (List (String × Int × Int))
  | [] => some []
  | (k, nc) :: rest =>
    let oc := counterGet old k
    if oc < nc then
      match parse_counter_key k with
      | none => none
      | some (s, g) => (collectAdded old rest).map (fun l => (s, g, nc - oc) :: l)
    else collectAdded old rest

/-- The sorting key of `added.sort(key=lambda x: (x[0], x[1]))`:
lexicographic order on (subject, grade). -/
def addedLe (a b : String × Int × Int) : Prop :=
  a.1 < b.1 ∨ (a.1 = b.1 ∧ a.2.1 ≤ b.2.1)

instance : DecidableRel addedLe := fun a b => by
  unfold addedLe; infer_instance

instance : IsTrans (String × Int × Int) addedLe where
  trans := by
    rintro a b c (h1 | ⟨h1, h1'⟩) (h2 | ⟨h2, h2'⟩)
    · exact Or.inl (lt_trans h1 h2)
    · exact Or.inl (h2 ▸ h1)
    · exact Or.inl (h1 ▸ h2)
    · exact Or.inr ⟨h1.trans h2, le_trans h1' h2'⟩

instance : IsTotal (String × Int × Int) addedLe where
  total := by
    intro a b
    rcases lt_trichotomy a.1 b.1 with h | h | h
    · exact Or.inl (Or.inl h)
    · rcases le_total a.2.1 b.2.1 with h' | h'
      · exact Or.inl (Or.inr ⟨h, h'⟩)
      · exact Or.inr (Or.inr ⟨h.symm, h'⟩)
    · exact Or.inr (Or.inl h)

/-- `diff_new_grades` from the source: collect strictly-grown keys,
then sort by (subject, grade). -/
def diff_new_grades (old new : PCounter) : Option (List (String × Int × Int)) :=
  match collectAdded old new with
  | none => none
  | some added => some (added.insertionSort addedLe)

/-! ## Spreadsheet extractor (`parse_excel_grades`) -/

/-- A spreadsheet cell value as seen through openpyxl `values_only` rows:
empty, text, integer, float, or anything else (dates, formulas errors, …).
Python booleans are integers (`isinstance(True, int)`), so they fall
under `intc`. -/
inductive Cell where
  | blank
  | text (s : String)
  | intc (n : Int)
  | floatc (q : Rat)
  | other
deriving DecidableEq

/-- Python `int()` on a float: truncation toward zero. -/
def pyTruncRat (q : Rat) : Int :=
  if 0 ≤ q then ⌊q⌋ else -⌊-q⌋

/-- `isinstance(cell, (int, float))` acceptance with `int(cell)` conversion. -/
def cellGrade : Cell → Option Int
  | .intc n => some n
  | .floatc q => some (pyTruncRat q)
  | _ => none

/-- `parse_excel_grades` from the source. A row is its first cell plus the
remaining cells (openpyxl rows are fixed-width tuples). A row is skipped
when its first cell is falsy or not a string (`if not subject or not
isinstance(subject, str): continue`); otherwise the subject is stripped
and every numeric cell of the row contributes one (subject, grade) pair,
appended to the running list. -/
def parse_excel_grades (grid : List (Cell × List Cell)) : List (String × Int) :=
  grid.foldl (fun items row =>
    match row.1 with
    | Cell.text s =>
      if s = "" then items
      else items ++ row.2.filterMap (fun c => (cellGrade c).map (fun g => (s.trim, g)))
    | _ => items) []

/-- Modelled from the spec's words (section 4.1), for comparison with
`parse_excel_grades`: the pairs one row contributes — nothing unless the
first cell is a non-empty string; otherwise each numeric cell, truncated
to an integer, paired with the whitespace-trimmed subject. -/
def specRowPairs (row : Cell × List Cell) : List (String × Int) :=
  match row.1 with
  | Cell.text s =>
    if s = "" then []
    else row.2.filterMap (fun c => (cellGrade c).map (fun g => (s.trim, g)))
  | _ => []

/-! ## Analyzer (`analyze_items`) -/

/-- `by_subject.setdefault(subj, []).append(grade)`: append the grade to
the subject's list, creating the subject at the end on first sight. -/
def addGrade (m : List (String × List Int)) (s : String) (g : Int) :
    List (String × List Int) :=
  match m with
  | [] => [(s, [g])]
  | (t, vs) :: rest =>
    if t = s then (t, vs ++ [g]) :: rest else (t, vs) :: addGrade rest s g

/-- The grouping loop of `analyze_items`. -/
def groupBySubject (items : List (String × Int)) : List (String × List Int) :=
  items.foldl (fun m p => addGrade m p.1 p.2) []

/-- `sum(vals) / len(vals)` over the integers of one subject. -/
def listMean (l : List Int) : Rat :=
  ((l.sum : Int) : Rat) / (l.length : Rat)

/-- `max(averages, key=averages.get)`: first key of maximal value in
iteration order (a later key replaces only on strict improvement). -/
def bestSubject (avgs : List (String × Rat)) : String :=
  match avgs with
  | [] => ""
  | p :: rest => (rest.foldl (fun b q => if b.2 < q.2 then q else b) p).1

/-- `min(averages, key=averages.get)`: first key of minimal value. -/
def worstSubject (avgs : List (String × Rat)) : String :=
  match avgs with
  | [] => ""
  | p :: rest => (rest.foldl (fun b q => if q.2 < b.2 then q else b) p).1

/-- The result dictionary of `analyze_items`. -/
structure Report where
  overall : Rat
  best : String
  worst : String
  averages : List (String × Rat)
deriving DecidableEq

/-- `analyze_items` from the source; `none` models `return None` on an
empty item list. -/
def analyze_items (items : List (String × Int)) : Option Report :=
  match items with
  | [] => none
  | _ :: _ =>
    let averages := (groupBySubject items).map (fun p => (p.1, listMean p.2))
    let overall := (averages.map Prod.snd).sum / (averages.length : Rat)
    some ⟨overall, bestSubject averages, worstSubject averages, averages⟩

/-- Spec-side view: the grades of one subject, in input order. -/
def subjGrades (items : List (String × Int)) (s : String) : List Int :=
  (items.filter (fun p => p.1 = s)).map Prod.snd

/-- Spec-side view: the distinct subjects of an item list. -/
def subjects (items : List (String × Int)) : List String :=
  (items.map Prod.fst).dedup

/-! ## The sqlite store, for one user

The four tables of `init_db`, restricted to a single `chat_id`:
the `users` row (possibly absent), the `grade_counter` rows, the
`snapshots` rows (id, payload) in insertion = id order (ids come from
`AUTOINCREMENT`, starting at 1), and the `counter_snapshots` rows grouped
per snapshot id. `averages_json` round-trips structurally through
`json.dumps`/`json.loads`, so it is kept as the association list itself. -/

/-- One `users` row. -/
structure URow where
  reminder_enabled : Int
  reminder_time : Option String
  awaiting_time : Int
  last_overall : Option Rat
  last_averages : Option (List (String × Rat))
deriving DecidableEq

/-- The column defaults of `CREATE TABLE users`. -/
def URow.init : URow := ⟨0, none, 0, none, none⟩

/-- One `snapshots` row payload (`ts`, `overall`, `averages_json`). -/
structure SnapData where
  ts : String
  overall : Rat
  averages : List (String × Rat)
deriving DecidableEq

/-- The whole per-user database state. -/
structure DB where
  user : Option URow
  grade_counter : PCounter
  snapshots : List (Nat × SnapData)
  counter_snapshots : List (Nat × PCounter)
  nextId : Nat
deriving DecidableEq

/-- A freshly initialised database (`AUTOINCREMENT` starts at 1). -/
def DB.empty : DB := ⟨none, [], [], [], 1⟩

/-- `HISTORY_LIMIT = 60` from the source. -/
def HISTORY_LIMIT : Nat := 60

/-- `ensure_user`: `INSERT OR IGNORE INTO users(chat_id)`. -/
def ensure_user (s : DB) : DB :=
  match s.user with
  | none => { s with user := some URow.init }
  | some _ => s

/-- `get_counter`: read the user's `grade_counter` rows. -/
def get_counter (s : DB) : PCounter :=
  s.grade_counter

/-- `set_counter`: delete all of the user's counter rows, insert `c`. -/
def set_counter (c : PCounter) (s : DB) : DB :=
  let s := ensure_user s
  { s with grade_counter := c }

/-- `set_user_fields(last_overall=…, last_averages_json=…)`, used both
by ingestion (with values) and by undo-to-empty (with NULLs). -/
def set_last_results (overall : Option Rat) (avgs : Option (List (String × Rat)))
    (s : DB) : DB :=
  let s := ensure_user s
  { s with user := s.user.map (fun u => { u with last_overall := overall, last_averages := avgs }) }

/-- `set_user_fields(awaiting_time=…)`. -/
def set_awaiting (v : Int) (s : DB) : DB :=
  let s := ensure_user s
  { s with user := s.user.map (fun u => { u with awaiting_time := v }) }

/-- `set_user_fields(awaiting_time=…, reminder_time=…)`. -/
def set_time_fields (v : Int) (t : String) (s : DB) : DB :=
  let s := ensure_user s
  { s with user := s.user.map (fun u => { u with awaiting_time := v, reminder_time := some t }) }

/-- `get_last_overall`: NULL becomes `None`. -/
def get_last_overall (s : DB) : Option Rat :=
  ((ensure_user s).user.getD URow.init).last_overall

/-- The raw `last_averages_json` column (NULL as `none`); the source's
`get_last_averages` renders NULL as the empty dict. -/
def get_last_averages_raw (s : DB) : Option (List (String × Rat)) :=
  ((ensure_user s).user.getD URow.init).last_averages

/-- The retention predicate of `add_snapshot`'s DELETE: a row survives
iff its id is among the `HISTORY_LIMIT` largest
(`id NOT IN (SELECT id … ORDER BY id DESC LIMIT ?)` — with the ids
unique, a row is kept iff fewer than `HISTORY_LIMIT` rows have a larger
id). -/
def keepPred (l : List (Nat × SnapData)) (x : Nat × SnapData) : Bool :=
  l.countP (fun y => decide (x.1 < y.1)) < HISTORY_LIMIT

/-- The rows surviving the retention DELETE. -/
def trimKeep (l : List (Nat × SnapData)) : List (Nat × SnapData) :=
  l.filter (keepPred l)

/-- The ids of the rows removed by the retention DELETE (their
`counter_snapshots` rows go with them via `ON DELETE CASCADE`). -/
def removedIds (l : List (Nat × SnapData)) : List Nat :=
  (l.filter (fun x => !keepPred l x)).map Prod.fst

/-- `add_snapshot`: insert a snapshot with the next `AUTOINCREMENT` id,
then enforce the retention bound, cascading into `counter_snapshots`;
one committed transaction. Returns the new id. -/
def add_snapshot (ts : String) (overall : Rat) (avgs : List (String × Rat))
    (s : DB) : Nat × DB :=
  let s := ensure_user s
  let sid := s.nextId
  let inserted := s.snapshots ++ [(sid, ⟨ts, overall, avgs⟩)]
  (sid, { s with
    snapshots := trimKeep inserted,
    counter_snapshots :=
      s.counter_snapshots.filter (fun p => !(removedIds inserted).contains p.1),
    nextId := sid + 1 })

/-- `save_counter_snapshot`: `INSERT OR REPLACE` of the counter rows for
one snapshot id (the id handed in is always freshly created, so this is
an insert; the grouped model replaces any same-id group). -/
def save_counter_snapshot (sid : Nat) (c : PCounter) (s : DB) : DB :=
  { s with counter_snapshots := (sid, c) :: s.counter_snapshots.filter (fun p => p.1 ≠ sid) }

/-- Largest element of a list of ids (`ORDER BY id DESC LIMIT 1`). -/
def maxIdOf (l : List Nat) : Option Nat :=
  l.foldl (fun a i => match a with | none => some i | some m => some (max m i)) none

/-- `get_latest_snapshot_id`. -/
def get_latest_snapshot_id (s : DB) : Option Nat :=
  maxIdOf (s.snapshots.map Prod.fst)

/-- `get_snapshot_data`: the payload of the snapshot with a given id
(ids are a primary key, so `find?` under id-uniqueness is the SQL row). -/
def get_snapshot_data (sid : Nat) (s : DB) : Option SnapData :=
  (s.snapshots.find? (fun p => p.1 = sid)).map Prod.snd

/-- `get_counter_by_snapshot`: empty counter when no rows exist. -/
def get_counter_by_snapshot (sid : Nat) (s : DB) : PCounter :=
  ((s.counter_snapshots.find? (fun p => p.1 = sid)).map Prod.snd).getD []

/-- What the undo button reports. -/
inductive UndoOutcome where
  | nothingToUndo
  | clearedAll
  | restored (ts : String)
  | restoreFailed
deriving DecidableEq

/-- The `call.data == "undo"` branch of `on_callback`. Note the Python
truthiness check `if not last_id:` treats id 0 like absence (ids start
at 1, so the extra test mirrors the code without ever firing). -/
def undo (s0 : DB) : DB × UndoOutcome :=
  let s := ensure_user s0
  match get_latest_snapshot_id s with
  | none => (s, .nothingToUndo)
  | some last_id =>
    if last_id = 0 then (s, .nothingToUndo)
    else
      let s1 : DB := { s with
        snapshots := s.snapshots.filter (fun p => p.1 ≠ last_id),
        counter_snapshots := s.counter_snapshots.filter (fun p => p.1 ≠ last_id) }
      match get_latest_snapshot_id s1 with
      | none => (set_counter [] (set_last_results none none s1), .clearedAll)
      | some prev_id =>
        if prev_id = 0 then (set_counter [] (set_last_results none none s1), .clearedAll)
        else
          match get_snapshot_data prev_id s1 with
          | none => (s1, .restoreFailed)
          | some snap =>
            let prev_counter := get_counter_by_snapshot prev_id s1
            (set_counter prev_counter
              (set_last_results (some snap.overall) (some snap.averages) s1),
             .restored snap.ts)

/-- What the document handler reports. -/
inductive DocOutcome where
  | badExtension
  | downloadFailed
  | parseCrashed
  | noGrades
  | diffCrashed
  | processed (added : List (String × Int × Int))
deriving DecidableEq

/-- The body of `on_document` from the parsed items on: analyze, diff
against the stored counter, then the four separately-committed writes
(`set_counter`, `set_user_fields`, `add_snapshot`, `save_counter_snapshot`).
`diffCrashed` models the `ValueError` escaping from `diff_new_grades`
before any write happens. -/
def ingestItems (items : List (String × Int)) (ts : String) (s : DB) :
    DB × DocOutcome :=
  let s := ensure_user s
  match analyze_items items with
  | none => (s, .noGrades)
  | some rep =>
    let old_counter := get_counter s
    let new_counter := make_counter items
    match diff_new_grades old_counter new_counter with
    | none => (s, .diffCrashed)
    | some added =>
      let s := set_counter new_counter s
      let s := set_last_results (some rep.overall) (some rep.averages) s
      let (sid, s) := add_snapshot ts rep.overall rep.averages s
      let s := save_counter_snapshot sid new_counter s
      (s, .processed added)

/-- The whole `on_document` handler: extension check (before any state
is touched), `ensure_user`, download, workbook parse (`grid? = none`
models `load_workbook` raising), then `ingestItems`. -/
def on_document (isXlsx downloadOk : Bool) (grid? : Option (List (Cell × List Cell)))
    (ts : String) (s : DB) : DB × DocOutcome :=
  if !isXlsx then (s, .badExtension)
  else
    let s := ensure_user s
    if !downloadOk then (s, .downloadFailed)
    else match grid? with
    | none => (s, .parseCrashed)
    | some grid => ingestItems (parse_excel_grades grid) ts s

/-- The success-path write sequence of `on_document`, cut after the
first `k` of its four separately-committed sqlite transactions
(1 `set_counter`, 2 `set_user_fields`, 3 `add_snapshot`,
4 `save_counter_snapshot`); `k = 0` is the state before any write. -/
def ingestUpTo (k : Nat) (items : List (String × Int)) (ts : String) (s : DB) : DB :=
  let s0 := ensure_user s
  match analyze_items items with
  | none => s0
  | some rep =>
    let new_counter := make_counter items
    if k = 0 then s0 else
    let s1 := set_counter new_counter s0
    if k = 1 then s1 else
    let s2 := set_last_results (some rep.overall) (some rep.averages) s1
    if k = 2 then s2 else
    let (sid, s3) := add_snapshot ts rep.overall rep.averages s2
    if k = 3 then s3 else
    save_counter_snapshot sid new_counter s3

/-- The consistency the spec demands between the current-state cache and
the newest snapshot (section 3, Ownership): with no snapshot the cache is
empty/absent; otherwise the cached overall, averages and counter are
exactly the newest snapshot's content. -/
def cacheConsistent (s : DB) : Bool :=
  match get_latest_snapshot_id s with
  | none =>
    decide (s.grade_counter = []) &&
    decide ((s.user.getD URow.init).last_overall = none) &&
    decide ((s.user.getD URow.init).last_averages = none)
  | some sid =>
    match get_snapshot_data sid s with
    | none => false
    | some d =>
      decide ((s.user.getD URow.init).last_overall = some d.overall) &&
      decide ((s.user.getD URow.init).last_averages = some d.averages) &&
      decide (s.grade_counter = get_counter_by_snapshot sid s)

/-- What the text handler reports. -/
inductive TextOutcome where
  | menuPrompt
  | badTime
  | timeSet (t : String)
deriving DecidableEq

/-- Python `txt.split(":")` on characters. -/
def splitColon (l : List Char) : List (List Char) :=
  match l with
  | [] => [[]]
  | c :: cs =>
    let r := splitColon cs
    if c = ':' then [] :: r
    else match r with
         | [] => [[c]]
         | h :: t => (c :: h) :: t

/-- The custom-time parsing of `on_text`: strip, split on `':'` into
exactly two parts, `int()` each, range-check hour and minute; any
failure raises and is caught (`none`). -/
def parseHHMM (txt : String) : Option (Nat × Nat) :=
  match splitColon (trimWs txt.data) with
  | [a, b] =>
    match pyParseInt a, pyParseInt b with
    | some hh, some mm =>
      if 0 ≤ hh ∧ hh ≤ 23 ∧ 0 ≤ mm ∧ mm ≤ 59 then some (hh.toNat, mm.toNat) else none
    | _, _ => none
  | _ => none

/-- Two-digit zero-padded rendering, as `f"{hh:02d}"`. -/
def format2 (n : Nat) : List Char :=
  if n < 10 then ['0', digitToChar n] else natChars n

/-- `f"{hh_i:02d}:{mm_i:02d}"`. -/
def formatHHMM (h m : Nat) : String :=
  ⟨format2 h ++ [':'] ++ format2 m⟩

/-- The `on_text` handler: when the awaiting-time flag is set, a
malformed time clears the flag and reports an error; a well-formed time
clears the flag and stores the time; otherwise only the menu is shown. -/
def on_text (txt : String) (s : DB) : DB × TextOutcome :=
  let s := ensure_user s
  let u := s.user.getD URow.init
  if u.awaiting_time ≠ 0 then
    match parseHHMM txt with
    | none => (set_awaiting 0 s, .badTime)
    | some (h, m) => (set_time_fields 0 (formatHHMM h m) s, .timeSet (formatHHMM h m))
  else (s, .menuPrompt)

/-- The state invariant every reachable store satisfies: snapshot ids
are positive, strictly increasing along the table (insertion = id
order under `AUTOINCREMENT`), below the next id, and at most
`HISTORY_LIMIT` many; `counter_snapshots` ids are distinct and below
the next id. -/
def Inv (s : DB) : Prop :=
  0 < s.nextId ∧
  s.snapshots.length ≤ HISTORY_LIMIT ∧
  (s.snapshots.map Prod.fst).Pairwise (· < ·) ∧
  (∀ i ∈ s.snapshots.map Prod.fst, 0 < i ∧ i < s.nextId) ∧
  (s.counter_snapshots.map Prod.fst).Nodup ∧
  (∀ i ∈ s.counter_snapshots.map Prod.fst, i < s.nextId)

instance (s : DB) : Decidable (Inv s) := by
  unfold Inv; infer_instance

/-- The snapshot payload one successful ingestion writes. -/
def mkSnapData (items : List (String × Int)) (ts : String) : SnapData :=
  match analyze_items items with
  | some rep => ⟨ts, rep.overall, rep.averages⟩
  | none => ⟨ts, 0, []⟩

/-- The snapshot rows a run of ingestions appends, with their
`AUTOINCREMENT` ids starting at `nid`. -/
def newSnaps (ds : List (List (String × Int) × String)) (nid : Nat) :
    List (Nat × SnapData) :=
  match ds with
  | [] => []
  | p :: rest => (nid, mkSnapData p.1 p.2) :: newSnaps rest (nid + 1)

/-! ## Extractor lemmas -/

theorem foldl_rowAppend (f : (Cell × List Cell) → List (String × Int))
    (grid : List (Cell × List Cell)) :
    ∀ init : List (String × Int),
      grid.foldl (fun items row => items ++ f row) init = init ++ grid.flatMap f := by
  induction grid with
  | nil => intro init; simp
  | cons r g ih => intro init; simp [List.foldl_cons, ih, List.flatMap_cons]

theorem parse_excel_grades_eq_bind (grid : List (Cell × List Cell)) :
    parse_excel_grades grid = grid.flatMap specRowPairs := by
  have hbody : ∀ (items : List (String × Int)) (row : Cell × List Cell),
      (match row.1 with
        | Cell.text s =>
          if s = "" then items
          else items ++ row.2.filterMap (fun c => (cellGrade c).map (fun g => (s.trim, g)))
        | _ => items) = items ++ specRowPairs row := by
    intro items row
    rcases row with ⟨c, rest⟩
    cases c <;> simp [specRowPairs]
    rename_i s
    by_cases hs : s = "" <;> simp [hs]
  calc parse_excel_grades grid
      = grid.foldl (fun items row => items ++ specRowPairs row) [] := by
        unfold parse_excel_grades
        congr 1
        funext items row
        exact hbody items row
    _ = [] ++ grid.flatMap specRowPairs := foldl_rowAppend specRowPairs grid []
    _ = grid.flatMap specRowPairs := by simp


/-! ## Analyzer lemmas -/

theorem addGrade_nil (s : String) (g : Int) : addGrade [] s g = [(s, [g])] := rfl

theorem addGrade_cons (k : String) (vs : List Int) (r : List (String × List Int))
    (s : String) (g : Int) :
    addGrade ((k, vs) :: r) s g =
      if k = s then (k, vs ++ [g]) :: r else (k, vs) :: addGrade r s g := rfl

theorem alookup_nil {β : Type} (t : String) : alookup (β := β) t [] = none := rfl

theorem alookup_cons {β : Type} (t k : String) (v : β) (r : List (String × β)) :
    alookup t ((k, v) :: r) = if k = t then some v else alookup t r := rfl

theorem alookup_map_value {β γ : Type} (f : β → γ) (t : String) :
    ∀ m : List (String × β),
      alookup t (m.map (fun p => (p.1, f p.2))) = (alookup t m).map f := by
  intro m
  induction m with
  | nil => rfl
  | cons p r ih =>
    rcases p with ⟨k, v⟩
    by_cases h : k = t <;> simp [alookup_cons, h, ih]

theorem alookup_addGrade (t s : String) (g : Int) :
    ∀ m, alookup t (addGrade m s g) =
      if t = s then some ((alookup t m).getD [] ++ [g]) else alookup t m := by
  intro m
  induction m with
  | nil =>
    by_cases h : t = s
    · simp [addGrade_nil, alookup_cons, alookup_nil, h]
    · have h' : ¬ s = t := fun he => h he.symm
      simp [addGrade_nil, alookup_cons, alookup_nil, h, h']
  | cons p r ih =>
    rcases p with ⟨k, vs⟩
    rw [addGrade_cons]
    by_cases hk : k = s
    · rw [if_pos hk]
      by_cases ht : t = s
      · have hkt : k = t := by rw [hk, ht]
        simp [alookup_cons, hkt, ht]
      · have hkt : ¬ k = t := fun he => ht (by rw [← he, hk])
        simp [alookup_cons, hkt, ht]
    · rw [if_neg hk]
      by_cases hkt : k = t
      · have hts : ¬ t = s := fun he => hk (by rw [hkt, he])
        simp [alookup_cons, hkt, hts]
      · simp [alookup_cons, hkt, ih]

theorem subjGrades_append (items : List (String × Int)) (p : String × Int) (t : String) :
    subjGrades (items ++ [p]) t =
      subjGrades items t ++ (if p.1 = t then [p.2] else []) := by
  by_cases h : p.1 = t <;> simp [subjGrades, List.filter_append, h]

theorem subjGrades_of_not_mem (items : List (String × Int)) (t : String)
    (h : t ∉ items.map Prod.fst) : subjGrades items t = [] := by
  unfold subjGrades
  rw [List.filter_eq_nil_iff.mpr, List.map_nil]
  intro p hp hpt
  exact h (List.mem_map.mpr ⟨p, hp, by simpa using hpt⟩)

theorem groupBySubject_append (items : List (String × Int)) (p : String × Int) :
    groupBySubject (items ++ [p]) = addGrade (groupBySubject items) p.1 p.2 := by
  simp [groupBySubject, List.foldl_append]

theorem alookup_groupBySubject (items : List (String × Int)) (t : String) :
    alookup t (groupBySubject items) =
      if t ∈ items.map Prod.fst then some (subjGrades items t) else none := by
  induction items using List.reverseRecOn with
  | nil => simp [groupBySubject, alookup_nil, subjGrades]
  | append_singleton items p ih =>
    rw [groupBySubject_append, alookup_addGrade, ih]
    by_cases ht : t = p.1
    · have hpt : p.1 = t := ht.symm
      by_cases hm : t ∈ items.map Prod.fst
      · have hmem2 : t ∈ (items ++ [p]).map Prod.fst := by
          rw [List.map_append]
          exact List.mem_append_left _ hm
        rw [if_pos ht, if_pos hm, if_pos hmem2, subjGrades_append, if_pos hpt]
        rfl
      · have hmem2 : t ∈ (items ++ [p]).map Prod.fst := by
          rw [List.map_append]
          refine List.mem_append_right _ ?_
          simp [ht]
        rw [if_pos ht, if_neg hm, if_pos hmem2, subjGrades_append, if_pos hpt,
          subjGrades_of_not_mem items t hm]
        rfl
    · have hpt : ¬ p.1 = t := fun he => ht he.symm
      rw [if_neg ht]
      by_cases hm : t ∈ items.map Prod.fst
      · have hmem2 : t ∈ (items ++ [p]).map Prod.fst := by
          rw [List.map_append]
          exact List.mem_append_left _ hm
        rw [if_pos hm, if_pos hmem2, subjGrades_append, if_neg hpt]
        simp
      · have hmem2 : t ∉ (items ++ [p]).map Prod.fst := by
          rw [List.map_append]
          intro h
          rcases List.mem_append.mp h with h' | h'
          · exact hm h'
          · exact ht (by simpa using h')
        rw [if_neg hm, if_neg hmem2]

theorem keys_addGrade (s : String) (g : Int) :
    ∀ m, (addGrade m s g).map Prod.fst =
      if s ∈ m.map Prod.fst then m.map Prod.fst else m.map Prod.fst ++ [s] := by
  intro m
  induction m with
  | nil => simp [addGrade_nil]
  | cons p r ih =>
    rcases p with ⟨k, vs⟩
    rw [addGrade_cons]
    by_cases hk : k = s
    · rw [if_pos hk, hk]
      simp
    · have hks : ¬ s = k := fun he => hk he.symm
      rw [if_neg hk]
      by_cases hm : s ∈ r.map Prod.fst
      · simp [ih, hm, hks]
      · simp [ih, hm, hks]

theorem keys_groupBySubject (items : List (String × Int)) :
    ((groupBySubject items).map Prod.fst).Nodup ∧
    (∀ t, t ∈ (groupBySubject items).map Prod.fst ↔ t ∈ items.map Prod.fst) := by
  induction items using List.reverseRecOn with
  | nil => simp [groupBySubject]
  | append_singleton items p ih =>
    rcases ih with ⟨hnd, hmem⟩
    rw [groupBySubject_append, keys_addGrade]
    by_cases hm : p.1 ∈ (groupBySubject items).map Prod.fst
    · refine ⟨by simpa [hm] using hnd, ?_⟩
      intro t
      rw [if_pos hm, hmem t, List.map_append]
      constructor
      · intro h
        exact List.mem_append_left _ h
      · intro h
        rcases List.mem_append.mp h with h' | h'
        · exact h'
        · have hteq : t = p.1 := by simpa using h'
          rw [hteq]
          exact (hmem p.1).mp hm
    · refine ⟨?_, ?_⟩
      · rw [if_neg hm]
        refine List.Nodup.append hnd (List.nodup_singleton _) ?_
        intro a ha hb
        simp at hb
        subst hb
        exact hm ha
      · intro t
        rw [if_neg hm, List.map_append]
        simp only [List.mem_append, hmem t]
        simp

theorem alookup_of_mem_nodup {β : Type} :
    ∀ (l : List (String × β)), (l.map Prod.fst).Nodup →
      ∀ p ∈ l, alookup p.1 l = some p.2 := by
  intro l
  induction l with
  | nil => intro _ p hp; cases hp
  | cons q r ih =>
    intro hnd p hp
    rcases List.mem_cons.mp hp with h | h
    · subst h
      rcases p with ⟨k, v⟩
      simp [alookup_cons]
    · have hq : ¬ q.1 = p.1 := by
        intro he
        simp only [List.map_cons, List.nodup_cons] at hnd
        exact hnd.1 (he ▸ List.mem_map.mpr ⟨p, h, rfl⟩)
      have hnd' : (r.map Prod.fst).Nodup := by
        simp only [List.map_cons, List.nodup_cons] at hnd
        exact hnd.2
      rcases q with ⟨k, v⟩
      rw [alookup_cons, if_neg hq]
      exact ih hnd' p h

theorem mem_groupBySubject (items : List (String × Int)) (p : String × List Int)
    (hp : p ∈ groupBySubject items) : p.2 = subjGrades items p.1 := by
  have hmem : p.1 ∈ items.map Prod.fst :=
    (keys_groupBySubject items).2 p.1 |>.mp (List.mem_map.mpr ⟨p, hp, rfl⟩)
  have hl := alookup_of_mem_nodup (groupBySubject items) (keys_groupBySubject items).1 p hp
  rw [alookup_groupBySubject, if_pos hmem] at hl
  exact (Option.some_inj.mp hl).symm

/-! ## Differ lemmas -/

theorem collectAdded_cons (old : PCounter) (k : String) (nc : Int) (rest : PCounter) :
    collectAdded old ((k, nc) :: rest) =
      if counterGet old k < nc then
        match parse_counter_key k with
        | none => none
        | some (s, g) =>
          (collectAdded old rest).map (fun l => (s, g, nc - counterGet old k) :: l)
      else collectAdded old rest := rfl

theorem collectAdded_spec (old : PCounter) :
    ∀ new : PCounter, (∀ p ∈ new, parse_counter_key p.1 ≠ none) →
      ∃ a, collectAdded old new = some a ∧
        ∀ s g d, ((s, g, d) ∈ a ↔
          ∃ k c, (k, c) ∈ new ∧ parse_counter_key k = some (s, g) ∧
            counterGet old k < c ∧ d = c - counterGet old k) := by
  intro new
  induction new with
  | nil =>
    intro _
    exact ⟨[], rfl, by simp⟩
  | cons p rest ih =>
    intro hk
    rcases p with ⟨k, nc⟩
    have hrest : ∀ p ∈ rest, parse_counter_key p.1 ≠ none := fun p hp =>
      hk p (List.mem_cons_of_mem _ hp)
    obtain ⟨a, ha, hmem⟩ := ih hrest
    by_cases hlt : counterGet old k < nc
    · have hparse := hk (k, nc) (List.mem_cons_self _ _)
      rcases hp : parse_counter_key k with _ | ⟨s0, g0⟩
      · exact absurd hp hparse
      · refine ⟨(s0, g0, nc - counterGet old k) :: a, ?_, ?_⟩
        · rw [collectAdded_cons, if_pos hlt, hp, ha]
          rfl
        · intro s g d
          constructor
          · intro hin
            rcases List.mem_cons.mp hin with he | he
            · obtain ⟨rfl, rfl, rfl⟩ : s = s0 ∧ g = g0 ∧ d = nc - counterGet old k := by
                simpa using he
              exact ⟨k, nc, List.mem_cons_self _ _, hp, hlt, rfl⟩
            · obtain ⟨k', c', hm', hp', hlt', hd'⟩ := (hmem s g d).mp he
              exact ⟨k', c', List.mem_cons_of_mem _ hm', hp', hlt', hd'⟩
          · rintro ⟨k', c', hm', hp', hlt', hd'⟩
            rcases List.mem_cons.mp hm' with he | he
            · obtain ⟨rfl, rfl⟩ : k' = k ∧ c' = nc := by simpa using he
              rw [hp] at hp'
              obtain ⟨rfl, rfl⟩ : s0 = s ∧ g0 = g := by simpa using hp'
              rw [hd']
              exact List.mem_cons_self _ _
            · exact List.mem_cons_of_mem _
                ((hmem s g d).mpr ⟨k', c', he, hp', hlt', hd'⟩)
    · refine ⟨a, ?_, ?_⟩
      · rw [collectAdded_cons, if_neg hlt]
        exact ha
      · intro s g d
        rw [hmem s g d]
        constructor
        · rintro ⟨k', c', hm', hp', hlt', hd'⟩
          exact ⟨k', c', List.mem_cons_of_mem _ hm', hp', hlt', hd'⟩
        · rintro ⟨k', c', hm', hp', hlt', hd'⟩
          rcases List.mem_cons.mp hm' with he | he
          · obtain ⟨rfl, rfl⟩ : k' = k ∧ c' = nc := by simpa using he
            exact absurd hlt' hlt
          · exact ⟨k', c', he, hp', hlt', hd'⟩

/-! ## Claim theorems: differ, analyzer, extractor -/

/-- C4. Differ contract: on multisets whose keys all parse, the diff
succeeds; it is sorted by subject then grade; it holds exactly the keys
of the new multiset whose count strictly exceeds the old count (absent
keys counting 0), paired with the positive difference; and on an empty
old multiset every reported count is the full new count. -/
theorem c4_differ_contract (old new : PCounter)
    (hk : ∀ p ∈ new, parse_counter_key p.1 ≠ none) :
    ∃ l, diff_new_grades old new = some l ∧
      l.Sorted addedLe ∧
      (∀ s g d, ((s, g, d) ∈ l ↔
        ∃ k c, (k, c) ∈ new ∧ parse_counter_key k = some (s, g) ∧
          counterGet old k < c ∧ d = c - counterGet old k)) ∧
      (∀ s g d, (s, g, d) ∈ l → 0 < d) ∧
      (old = [] → ∀ s g d, ((s, g, d) ∈ l ↔
        ∃ k, (k, d) ∈ new ∧ parse_counter_key k = some (s, g) ∧ 0 < d)) := by
  obtain ⟨a, ha, hmem⟩ := collectAdded_spec old new hk
  have hget0 : ∀ k, counterGet [] k = 0 := fun _ => rfl
  refine ⟨a.insertionSort addedLe, ?_, ?_, ?_, ?_, ?_⟩
  · unfold diff_new_grades
    rw [ha]
  · exact List.sorted_insertionSort addedLe a
  · intro s g d
    rw [List.mem_insertionSort]
    exact hmem s g d
  · intro s g d hin
    rw [List.mem_insertionSort] at hin
    obtain ⟨k, c, _, _, hlt, hd⟩ := (hmem s g d).mp hin
    omega
  · intro hold s g d
    subst hold
    rw [List.mem_insertionSort, hmem s g d]
    constructor
    · rintro ⟨k, c, hm, hp, hlt, hd⟩
      rw [hget0 k] at hlt hd
      have hcd : c = d := by omega
      exact ⟨k, hcd ▸ hm, hp, by omega⟩
    · rintro ⟨k, hm, hp, hd⟩
      refine ⟨k, d, hm, hp, ?_, ?_⟩
      · rw [hget0 k]; exact hd
      · rw [hget0 k]; omega

/-- Witness for C4 at the spec's own example. -/
theorem c4_differ_contract_witness :
    (∀ p ∈ ([(mkCounterKey "Math" 5, 2), (mkCounterKey "Math" 4, 1)] : PCounter),
      parse_counter_key p.1 ≠ none) ∧
    ∃ l, diff_new_grades [(mkCounterKey "Math" 5, 1)]
        [(mkCounterKey "Math" 5, 2), (mkCounterKey "Math" 4, 1)] = some l ∧
      l.Sorted addedLe := by
  have hk : ∀ p ∈ ([(mkCounterKey "Math" 5, 2), (mkCounterKey "Math" 4, 1)] : PCounter),
      parse_counter_key p.1 ≠ none := by decide
  obtain ⟨l, hd, hs, -, -, -⟩ :=
    c4_differ_contract [(mkCounterKey "Math" 5, 1)]
      [(mkCounterKey "Math" 5, 2), (mkCounterKey "Math" 4, 1)] hk
  exact ⟨hk, l, hd, hs⟩

/-- C5. Unweighted overall average: the analyzer fails on the empty
sequence; on a non-empty sequence each subject's reported value is the
arithmetic mean of that subject's grades, and the overall value is the
arithmetic mean of the per-subject means, each distinct subject counted
once regardless of how many grades it has. -/
theorem c5_unweighted_average :
    analyze_items [] = none ∧
    ∀ items : List (String × Int), items ≠ [] →
      ∃ r, analyze_items items = some r ∧
        (∀ s ∈ items.map Prod.fst,
          alookup s r.averages = some (listMean (subjGrades items s))) ∧
        r.overall =
          ((subjects items).map (fun s => listMean (subjGrades items s))).sum /
            ((subjects items).length : Rat) := by
  refine ⟨rfl, ?_⟩
  intro items hne
  rcases hitems : items with _ | ⟨i, rest⟩
  · exact absurd hitems hne
  rw [← hitems]
  have hform : analyze_items items = some
      ⟨((((groupBySubject items).map (fun p => (p.1, listMean p.2))).map Prod.snd).sum /
          ((((groupBySubject items).map (fun p => (p.1, listMean p.2)))).length : Rat)),
        bestSubject ((groupBySubject items).map (fun p => (p.1, listMean p.2))),
        worstSubject ((groupBySubject items).map (fun p => (p.1, listMean p.2))),
        (groupBySubject items).map (fun p => (p.1, listMean p.2))⟩ := by
    rw [hitems]
    rfl
  refine ⟨_, hform, ?_, ?_⟩
  · intro s hs
    rw [alookup_map_value listMean s (groupBySubject items), alookup_groupBySubject,
      if_pos hs]
    rfl
  · have hkeys := keys_groupBySubject items
    have hperm : List.Perm ((groupBySubject items).map Prod.fst) (subjects items) := by
      refine (List.perm_ext_iff_of_nodup hkeys.1 (List.nodup_dedup _)).mpr ?_
      intro a
      rw [hkeys.2 a]
      exact (List.mem_dedup).symm
    have hmapsnd : (((groupBySubject items).map (fun p => (p.1, listMean p.2))).map Prod.snd)
        = ((groupBySubject items).map Prod.fst).map
            (fun s => listMean (subjGrades items s)) := by
      rw [List.map_map, List.map_map]
      refine List.map_congr_left ?_
      intro p hp
      simp only [Function.comp_apply]
      rw [mem_groupBySubject items p hp]
    have hsum := List.Perm.sum_eq (List.Perm.map (fun s => listMean (subjGrades items s)) hperm)
    have hlen : (((groupBySubject items).map (fun p => (p.1, listMean p.2)))).length
        = ((subjects items).length) := by
      rw [List.length_map, ← List.length_map (groupBySubject items) Prod.fst,
        List.Perm.length_eq hperm]
    simp only
    rw [hmapsnd, hsum, hlen]

/-- Witness for C5 at the spec's own example (per-subject means 5 and
5/2, overall 15/4 = 3.75, not the grade-weighted 4). -/
theorem c5_unweighted_average_witness :
    (([("S1", 4), ("S1", 5), ("S1", 6), ("S2", 2), ("S2", 3)] : List (String × Int)) ≠ []) ∧
    ∃ r, analyze_items [("S1", 4), ("S1", 5), ("S1", 6), ("S2", 2), ("S2", 3)] = some r ∧
      alookup "S1" r.averages = some 5 ∧
      alookup "S2" r.averages = some (5 / 2) ∧
      r.overall = 15 / 4 := by
  have hne : (([("S1", 4), ("S1", 5), ("S1", 6), ("S2", 2), ("S2", 3)] :
      List (String × Int)) ≠ []) := by decide
  obtain ⟨r, hr, hl, ho⟩ := c5_unweighted_average.2 _ hne
  have h2 : subjGrades [("S1", 4), ("S1", 5), ("S1", 6), ("S2", 2), ("S2", 3)] "S1"
      = [4, 5, 6] := by decide
  have h3 : subjGrades [("S1", 4), ("S1", 5), ("S1", 6), ("S2", 2), ("S2", 3)] "S2"
      = [2, 3] := by decide
  refine ⟨hne, r, hr, ?_, ?_, ?_⟩
  · rw [hl "S1" (by decide), h2]
    norm_num [listMean, List.sum_cons, List.sum_nil]
  · rw [hl "S2" (by decide), h3]
    norm_num [listMean, List.sum_cons, List.sum_nil]
  · have h1 : subjects [("S1", 4), ("S1", 5), ("S1", 6), ("S2", 2), ("S2", 3)]
        = ["S1", "S2"] := by decide
    rw [ho, h1, List.map_cons, List.map_cons, List.map_nil, h2, h3]
    norm_num [listMean, List.sum_cons, List.sum_nil]

/-- C8. Extraction row-skip purity: extraction is the per-row spec map;
a row whose first cell is not a non-empty string contributes nothing
regardless of its other cells; pairs of a kept row carry the trimmed
subject and come only from numeric cells; the empty grid yields the
empty sequence. -/
theorem c8_extraction_row_skip :
    (∀ grid, parse_excel_grades grid = grid.flatMap specRowPairs) ∧
    (∀ (c : Cell) (rest : List Cell), (∀ s, c = Cell.text s → s = "") →
      specRowPairs (c, rest) = []) ∧
    (∀ (s : String) (rest : List Cell) (p : String × Int),
      p ∈ specRowPairs (Cell.text s, rest) →
      p.1 = s.trim ∧ ∃ c ∈ rest, cellGrade c = some p.2) ∧
    parse_excel_grades [] = [] := by
  refine ⟨parse_excel_grades_eq_bind, ?_, ?_, rfl⟩
  · intro c rest h
    cases c with
    | text s =>
      have hs := h s rfl
      simp [specRowPairs, hs]
    | blank => rfl
    | intc n => rfl
    | floatc q => rfl
    | other => rfl
  · intro s rest p hp
    by_cases hs : s = ""
    · simp [specRowPairs, hs] at hp
    · simp only [specRowPairs, if_neg hs] at hp
      rw [List.mem_filterMap] at hp
      obtain ⟨c, hc, hmap⟩ := hp
      rcases hg : cellGrade c with _ | g
      · rw [hg] at hmap
        cases hmap
      · rw [hg] at hmap
        have hpe : p = (s.trim, g) := by
          simpa using hmap.symm
        subst hpe
        exact ⟨rfl, ⟨c, hc, hg⟩⟩

/-- Witness for C8: a row with a numeric first cell contributes nothing. -/
theorem c8_extraction_row_skip_witness :
    specRowPairs (Cell.intc 3, [Cell.text "x", Cell.intc 5]) = [] :=
  c8_extraction_row_skip.2.1 (Cell.intc 3) [Cell.text "x", Cell.intc 5]
    (fun _ h => by cases h)

/-! ## Composite-key lemmas -/

theorem charDigit_digitToChar (d : Nat) (h : d < 10) :
    charDigit (digitToChar d) = some d := by
  interval_cases d <;> decide

theorem digitToChar_spec (d : Nat) (h : d < 10) :
    isWsChar (digitToChar d) = false ∧ digitToChar d ≠ '-' ∧ digitToChar d ≠ '+' := by
  interval_cases d <;> exact ⟨by decide, by decide, by decide⟩

theorem natCharsAux_ne_nil (fuel n : Nat) (h : 0 < fuel) : natCharsAux fuel n ≠ [] := by
  rcases fuel with _ | fuel
  · omega
  · by_cases h10 : n < 10 <;> simp [natCharsAux, h10]

theorem natCharsAux_digits (fuel : Nat) :
    ∀ n, ∀ c ∈ natCharsAux fuel n, ∃ d, d < 10 ∧ c = digitToChar d := by
  induction fuel with
  | zero => intro n c hc; cases hc
  | succ fuel ih =>
    intro n c hc
    by_cases h10 : n < 10
    · simp only [natCharsAux, if_pos h10] at hc
      rw [List.mem_singleton] at hc
      exact ⟨n, h10, hc⟩
    · simp only [natCharsAux, if_neg h10] at hc
      rcases List.mem_append.mp hc with hc | hc
      · exact ih (n / 10) c hc
      · refine ⟨n % 10, Nat.mod_lt n (by omega), ?_⟩
        simpa using hc

theorem digitsVal_cons (c : Char) (cs : List Char) :
    digitsVal (c :: cs) = (c :: cs).foldl digitsStep (some 0) := rfl

theorem digitsFold_natCharsAux (fuel : Nat) :
    ∀ n, n < fuel → (natCharsAux fuel n).foldl digitsStep (some 0) = some n := by
  induction fuel with
  | zero => intro n hn; omega
  | succ fuel ih =>
    intro n hn
    by_cases h10 : n < 10
    · rw [show natCharsAux (fuel + 1) n = [digitToChar n] from by
        simp [natCharsAux, h10]]
      simp [digitsStep, charDigit_digitToChar n h10]
    · rw [show natCharsAux (fuel + 1) n = natCharsAux fuel (n / 10) ++ [digitToChar (n % 10)]
        from by simp [natCharsAux, h10]]
      have hdiv : n / 10 < fuel := by
        have h1 : n / 10 < n := Nat.div_lt_self (by omega) (by omega)
        omega
      rw [List.foldl_append, ih (n / 10) hdiv]
      simp [digitsStep, charDigit_digitToChar (n % 10) (Nat.mod_lt n (by omega))]
      omega

theorem digitsVal_natChars (n : Nat) : digitsVal (natChars n) = some n := by
  have hne := natCharsAux_ne_nil (n + 1) n (by omega)
  rcases he : natCharsAux (n + 1) n with _ | ⟨c, cs⟩
  · exact absurd he hne
  · unfold natChars
    rw [he, digitsVal_cons, ← he]
    exact digitsFold_natCharsAux (n + 1) n (by omega)

theorem dropWhile_eq_self_of (l : List Char) (h : ∀ c ∈ l, isWsChar c = false) :
    l.dropWhile isWsChar = l := by
  cases l with
  | nil => rfl
  | cons c cs => simp [List.dropWhile_cons, h c (List.mem_cons_self c cs)]

theorem trimWs_eq_self (l : List Char) (h : ∀ c ∈ l, isWsChar c = false) :
    trimWs l = l := by
  unfold trimWs
  rw [dropWhile_eq_self_of l h,
    dropWhile_eq_self_of l.reverse (fun c hc => h c (List.mem_reverse.mp hc))]
  exact List.reverse_reverse l

theorem natChars_not_ws (m : Nat) : ∀ c ∈ natChars m, isWsChar c = false := by
  intro c hc
  obtain ⟨d, hd, rfl⟩ := natCharsAux_digits (m + 1) m c hc
  exact (digitToChar_spec d hd).1

theorem pyParseInt_natChars (m : Nat) : pyParseInt (natChars m) = some (m : Int) := by
  have htrim : trimWs (natChars m) = natChars m := trimWs_eq_self _ (natChars_not_ws m)
  rcases he : natChars m with _ | ⟨c, cs⟩
  · exact absurd he (natCharsAux_ne_nil (m + 1) m (by omega))
  · obtain ⟨d, hd, hcd⟩ := natCharsAux_digits (m + 1) m c (by
      show c ∈ natChars m
      rw [he]
      exact List.mem_cons_self c cs)
    have hc1 : ¬ c = '-' := by rw [hcd]; exact (digitToChar_spec d hd).2.1
    have hc2 : ¬ c = '+' := by rw [hcd]; exact (digitToChar_spec d hd).2.2
    have htrim2 : trimWs (c :: cs) = c :: cs := by
      rw [← he]
      exact htrim
    simp only [pyParseInt]
    rw [htrim2]
    show (if c = '-' then (digitsVal cs).map (fun n => -(n : Int))
      else if c = '+' then (digitsVal cs).map (fun n => (n : Int))
      else (digitsVal (c :: cs)).map (fun n => (n : Int))) = some (m : Int)
    rw [if_neg hc1, if_neg hc2, ← he, digitsVal_natChars m]
    rfl

theorem pyParseInt_intChars (g : Int) : pyParseInt (intChars g) = some g := by
  by_cases hg : g < 0
  · simp only [intChars, if_pos hg]
    have htrim : trimWs ('-' :: natChars (-g).toNat) = '-' :: natChars (-g).toNat := by
      refine trimWs_eq_self _ ?_
      intro c hc
      rcases List.mem_cons.mp hc with rfl | hc
      · decide
      · exact natChars_not_ws _ c hc
    simp only [pyParseInt]
    rw [htrim]
    show (if ('-' : Char) = '-' then
        (digitsVal (natChars (-g).toNat)).map (fun n => -(n : Int))
      else _) = some g
    rw [if_pos rfl, digitsVal_natChars]
    show some (-(((-g).toNat : Nat) : Int)) = some g
    congr 1
    omega
  · simp only [intChars, if_neg hg]
    rw [pyParseInt_natChars]
    congr 1
    omega

theorem splitOnSep_boundary :
    ∀ l : List Char, hasSepChars l = false → l.getLast? ≠ some '|' →
      ∀ tail, splitOnSep (l ++ sepChars ++ tail) = some (l, tail) := by
  intro l
  induction l with
  | nil =>
    intro _ _ tail
    show splitOnSep ('|' :: '|' :: tail) = some ([], tail)
    simp [splitOnSep, sepChars, List.isPrefixOf]
  | cons c cs ih =>
    intro h1 h2 tail
    have hpre : sepChars.isPrefixOf (c :: (cs ++ sepChars ++ tail)) = false := by
      cases cs with
      | nil =>
        have hc : ¬ c = '|' := by
          intro he
          exact h2 (by rw [he]; rfl)
        have hc' : ¬ '|' = c := fun he => hc he.symm
        simp [sepChars, List.isPrefixOf, hc, hc']
      | cons c2 cs2 =>
        simp only [hasSepChars, sepChars, List.isPrefixOf, Bool.or_eq_false_iff,
          Bool.and_eq_false_iff] at h1
        simp only [List.cons_append, List.isPrefixOf, sepChars, Bool.and_eq_false_iff]
        rcases h1.1 with h | h
        · left; exact h
        · rcases h with h | h
          · right; left; exact h
          · cases h
    have h1' : hasSepChars cs = false := by
      simp only [hasSepChars, Bool.or_eq_false_iff] at h1
      exact h1.2
    have h2' : cs.getLast? ≠ some '|' := by
      cases cs with
      | nil => simp
      | cons d ds =>
        rw [List.getLast?_cons_cons] at h2
        exact h2
    have hrec := ih h1' h2' tail
    show splitOnSep (c :: (cs ++ sepChars ++ tail)) = some (c :: cs, tail)
    simp only [splitOnSep, hpre, Bool.false_eq_true, if_false]
    rw [hrec]

theorem parse_mkKey_clean (s : String) (g : Int) (h : cleanSubj s = true) :
    parse_counter_key (mkCounterKey s g) = some (s, g) := by
  have hparts : hasSepChars s.data = false ∧ s.data.getLast? ≠ some '|' := by
    simp only [cleanSubj, Bool.and_eq_true, Bool.not_eq_true', beq_eq_false_iff_ne] at h
    exact h
  have hdata : (mkCounterKey s g).data = s.data ++ sepChars ++ intChars g := rfl
  simp only [parse_counter_key]
  rw [hdata, splitOnSep_boundary s.data hparts.1 hparts.2 (intChars g)]
  show (pyParseInt (intChars g)).map (fun g => ((⟨s.data⟩ : String), g)) = some (s, g)
  rw [pyParseInt_intChars]
  rfl

/-! ## Claim theorems: composite key -/

/-- C10 counterexample: the subject `"A|"` contains no `"||"` yet the
round-trip fails (the key is `"A|||5"`, the split lands after `"A"`, and
`int("|5")` raises). -/
theorem c10_composite_key_counterexample :
    hasSepChars "A|".data = false ∧
    parse_counter_key (mkCounterKey "A|" 5) ≠ some ("A|", 5) := by
  constructor
  · decide
  · decide

/-- C10 (amended): the composite-key round-trip holds for every subject
that neither contains `"||"` nor ends in `'|'`; a subject containing
`"||"` (such as `"A||1"`) breaks it, the split landing inside the
subject and the grade conversion failing. -/
theorem c10_composite_key_roundtrip :
    (∀ (s : String) (g : Int), cleanSubj s = true →
      parse_counter_key (mkCounterKey s g) = some (s, g)) ∧
    parse_counter_key (mkCounterKey "A||1" 2) ≠ some ("A||1", 2) := by
  refine ⟨fun s g h => parse_mkKey_clean s g h, ?_⟩
  decide

/-- Witness for C10 at a concrete clean subject and negative grade. -/
theorem c10_composite_key_roundtrip_witness :
    cleanSubj "Math" = true ∧
    parse_counter_key (mkCounterKey "Math" (-7)) = some ("Math", -7) :=
  ⟨by decide, c10_composite_key_roundtrip.1 "Math" (-7) (by decide)⟩

/-! ## Store lemmas -/

theorem ensure_user_nextId (s : DB) : (ensure_user s).nextId = s.nextId := by
  unfold ensure_user
  cases s.user <;> rfl

theorem ensure_user_grade_counter (s : DB) :
    (ensure_user s).grade_counter = s.grade_counter := by
  unfold ensure_user
  cases s.user <;> rfl

theorem ensure_user_snapshots (s : DB) : (ensure_user s).snapshots = s.snapshots := by
  unfold ensure_user
  cases s.user <;> rfl

theorem ensure_user_counter_snapshots (s : DB) :
    (ensure_user s).counter_snapshots = s.counter_snapshots := by
  unfold ensure_user
  cases s.user <;> rfl

theorem ensure_user_user_some (s : DB) : ∃ u, (ensure_user s).user = some u := by
  unfold ensure_user
  cases hu : s.user with
  | none => exact ⟨URow.init, rfl⟩
  | some u => exact ⟨u, hu⟩

theorem ensure_user_of_some (s : DB) (u : URow) (h : s.user = some u) :
    ensure_user s = s := by
  unfold ensure_user
  rw [h]

theorem ingestItems_success (items : List (String × Int)) (ts : String) (s : DB)
    (rep : Report) (added : List (String × Int × Int)) (u0 : URow)
    (hrep : analyze_items items = some rep)
    (hu : (ensure_user s).user = some u0)
    (hdiff : diff_new_grades s.grade_counter (make_counter items) = some added) :
    ingestItems items ts s =
      ({ user := some { u0 with
            last_overall := some rep.overall,
            last_averages := some rep.averages },
         grade_counter := make_counter items,
         snapshots := trimKeep (s.snapshots ++ [(s.nextId, ⟨ts, rep.overall, rep.averages⟩)]),
         counter_snapshots := (s.nextId, make_counter items) ::
           ((s.counter_snapshots.filter (fun p =>
             !(removedIds (s.snapshots ++
                [(s.nextId, ⟨ts, rep.overall, rep.averages⟩)])).contains p.1)).filter
             (fun p => p.1 ≠ s.nextId)),
         nextId := s.nextId + 1 }, .processed added) := by
  have hens : ensure_user (ensure_user s) = ensure_user s :=
    ensure_user_of_some _ u0 hu
  simp only [ingestItems, get_counter, ensure_user_grade_counter, hrep, hdiff, set_counter,
    hens, set_last_results, add_snapshot, save_counter_snapshot,
    ensure_user_snapshots, ensure_user_counter_snapshots, ensure_user_nextId, hu,
    Option.map_some]
  rfl

theorem trimKeep_eq_drop :
    ∀ l : List (Nat × SnapData), (l.map Prod.fst).Pairwise (· < ·) →
      trimKeep l = l.drop (l.length - HISTORY_LIMIT) := by
  intro l
  induction l with
  | nil => intro _; rfl
  | cons x t ih =>
    intro hp
    rw [List.map_cons, List.pairwise_cons] at hp
    have hx : ∀ y ∈ t, x.1 < y.1 := fun y hy => hp.1 y.1 (List.mem_map.mpr ⟨y, hy, rfl⟩)
    have hpt : (t.map Prod.fst).Pairwise (· < ·) := hp.2
    have hcong : t.filter (keepPred (x :: t)) = t.filter (keepPred t) := by
      refine List.filter_congr ?_
      intro y hy
      unfold keepPred
      rw [List.countP_cons]
      have hdec : decide (y.1 < x.1) = false := by
        simp only [decide_eq_false_iff_not]
        exact fun hlt => absurd (lt_trans hlt (hx y hy)) (lt_irrefl _)
      rw [hdec]
      simp
    have hcnt : List.countP (fun y => decide (x.1 < y.1)) (x :: t) = t.length := by
      rw [List.countP_cons]
      have hxx : decide (x.1 < x.1) = false := by simp
      rw [hxx]
      simp only [if_false, Bool.false_eq_true, add_zero]
      exact List.countP_eq_length.mpr (fun y hy => by simpa using hx y hy)
    unfold trimKeep
    rw [List.filter_cons, hcong]
    have hih := ih hpt
    unfold trimKeep at hih
    by_cases hk : t.length < HISTORY_LIMIT
    · have hkp : keepPred (x :: t) x = true := by
        unfold keepPred
        rw [hcnt]
        simpa using hk
      rw [if_pos hkp, hih]
      have h1 : t.length - HISTORY_LIMIT = 0 := by omega
      have h2 : (x :: t).length - HISTORY_LIMIT = 0 := by
        rw [List.length_cons]
        omega
      rw [h1, h2]
      simp
    · have hkp : ¬ keepPred (x :: t) x = true := by
        unfold keepPred
        rw [hcnt]
        simpa using hk
      rw [if_neg hkp, hih]
      have h2 : (x :: t).length - HISTORY_LIMIT = (t.length - HISTORY_LIMIT) + 1 := by
        rw [List.length_cons]
        omega
      rw [h2, List.drop_succ_cons]

theorem trimKeep_length_le (l : List (Nat × SnapData))
    (hp : (l.map Prod.fst).Pairwise (· < ·)) :
    (trimKeep l).length ≤ HISTORY_LIMIT := by
  rw [trimKeep_eq_drop l hp, List.length_drop]
  omega

theorem maxIdOf_nil : maxIdOf [] = none := rfl

theorem maxIdOf_go (l : List Nat) : ∀ a : Nat,
    l.foldl (fun x i => match x with | none => some i | some m => some (max m i)) (some a)
      = some (l.foldl max a) := by
  induction l with
  | nil => intro a; rfl
  | cons i t ih => intro a; exact ih (max a i)

theorem foldl_max_eq (t : List Nat) : ∀ a m : Nat, a ≤ m → (∀ i ∈ t, i ≤ m) →
    (m = a ∨ m ∈ t) → t.foldl max a = m := by
  induction t with
  | nil =>
    intro a m _ _ hm
    rcases hm with rfl | h
    · rfl
    · cases h
  | cons i t ih =>
    intro a m ha hi hm
    show t.foldl max (max a i) = m
    refine ih (max a i) m (max_le ha (hi i (List.mem_cons_self _ _)))
      (fun j hj => hi j (List.mem_cons_of_mem _ hj)) ?_
    rcases hm with rfl | hm2
    · left
      exact (max_eq_left (hi i (List.mem_cons_self _ _))).symm
    · rcases List.mem_cons.mp hm2 with rfl | hm3
      · left
        exact (max_eq_right ha).symm
      · right
        exact hm3

theorem maxIdOf_eq (l : List Nat) (m : Nat) (hm : m ∈ l) (hub : ∀ i ∈ l, i ≤ m) :
    maxIdOf l = some m := by
  cases l with
  | nil => cases hm
  | cons c t =>
    unfold maxIdOf
    rw [List.foldl_cons]
    show t.foldl (fun x i => match x with | none => some i | some m => some (max m i))
      (some c) = some m
    rw [maxIdOf_go t c]
    congr 1
    refine foldl_max_eq t c m (hub c (List.mem_cons_self _ _))
      (fun i hi => hub i (List.mem_cons_of_mem _ hi)) ?_
    rcases List.mem_cons.mp hm with rfl | h
    · left; rfl
    · right; exact h

theorem find?_append_of_none {α : Type} (p : α → Bool) (l₁ l₂ : List α)
    (h : ∀ x ∈ l₁, p x = false) :
    List.find? p (l₁ ++ l₂) = List.find? p l₂ := by
  induction l₁ with
  | nil => rfl
  | cons c t ih =>
    rw [List.cons_append, List.find?_cons]
    rw [h c (List.mem_cons_self _ _)]
    exact ih (fun x hx => h x (List.mem_cons_of_mem _ hx))

theorem eq_of_fst_eq_of_nodup {α : Type} (l : List (Nat × α)) (x y : Nat × α)
    (hnd : (l.map Prod.fst).Nodup) (hx : x ∈ l) (hy : y ∈ l) (he : x.1 = y.1) :
    x = y :=
  List.inj_on_of_nodup_map hnd hx hy he

theorem not_mem_removedIds (l : List (Nat × SnapData)) (x : Nat × SnapData)
    (hnd : (l.map Prod.fst).Nodup) (hx : x ∈ l) (hkeep : keepPred l x = true) :
    ¬ x.1 ∈ removedIds l := by
  intro hmem
  unfold removedIds at hmem
  obtain ⟨y, hy, hyx⟩ := List.mem_map.mp hmem
  rw [List.mem_filter] at hy
  have hxy : y = x := eq_of_fst_eq_of_nodup l y x hnd hy.1 hx hyx
  rw [hxy] at hy
  rw [hkeep] at hy
  simp at hy

theorem find?_id_eq {α : Type} :
    ∀ l : List (Nat × α), ∀ i : Nat, ∀ d : α, (l.map Prod.fst).Nodup → (i, d) ∈ l →
      l.find? (fun p => p.1 = i) = some (i, d) := by
  intro l
  induction l with
  | nil => intro i d _ hm; cases hm
  | cons q r ih =>
    intro i d hnd hm
    rw [List.map_cons, List.nodup_cons] at hnd
    rcases List.mem_cons.mp hm with rfl | hm2
    · rw [List.find?_cons]
      simp
    · have hq : ¬ q.1 = i := by
        intro he
        exact hnd.1 (he ▸ List.mem_map.mpr ⟨(i, d), hm2, rfl⟩)
      rw [List.find?_cons]
      have : (decide (q.1 = i)) = false := by simpa using hq
      rw [this]
      exact ih i d hnd.2 hm2

theorem Inv_ensure (s : DB) (h : Inv s) : Inv (ensure_user s) := by
  unfold Inv at *
  rw [ensure_user_nextId, ensure_user_snapshots, ensure_user_counter_snapshots]
  exact h

theorem counterIncr_keys (k : String) :
    ∀ c : PCounter, ∀ k' ∈ (counterIncr c k).map Prod.fst,
      k' ∈ c.map Prod.fst ∨ k' = k := by
  intro c
  induction c with
  | nil =>
    intro k' h
    right
    simpa [counterIncr] using h
  | cons q r ih =>
    intro k' h
    rcases q with ⟨k0, n⟩
    by_cases h0 : k0 = k
    · simp only [counterIncr, if_pos h0, List.map_cons] at h
      rcases List.mem_cons.mp h with rfl | h2
      · left; simp
      · left; simp [h2]
    · simp only [counterIncr, if_neg h0, List.map_cons] at h
      rcases List.mem_cons.mp h with rfl | h2
      · left; simp
      · rcases ih k' h2 with h3 | h3
        · left; simp [h3]
        · right; exact h3

theorem make_counter_keys_aux :
    ∀ (its : List (String × Int)) (acc : PCounter),
      ∀ k ∈ (its.foldl (fun c p => counterIncr c (mkCounterKey p.1 p.2)) acc).map Prod.fst,
        k ∈ acc.map Prod.fst ∨ ∃ p ∈ its, k = mkCounterKey p.1 p.2 := by
  intro its
  induction its with
  | nil => intro acc k h; left; exact h
  | cons q rest ih =>
    intro acc k h
    rw [List.foldl_cons] at h
    rcases ih (counterIncr acc (mkCounterKey q.1 q.2)) k h with h2 | h2
    · rcases counterIncr_keys (mkCounterKey q.1 q.2) acc k h2 with h3 | h3
      · left; exact h3
      · right; exact ⟨q, List.mem_cons_self _ _, h3⟩
    · obtain ⟨p, hp, he⟩ := h2
      right
      exact ⟨p, List.mem_cons_of_mem _ hp, he⟩

theorem make_counter_keys (items : List (String × Int)) :
    ∀ k ∈ (make_counter items).map Prod.fst, ∃ p ∈ items, k = mkCounterKey p.1 p.2 := by
  intro k h
  rcases make_counter_keys_aux items [] k h with h2 | h2
  · cases h2
  · exact h2

theorem counterIncr_pos (k : String) :
    ∀ c : PCounter, (∀ p ∈ c, 0 < p.2) → ∀ p ∈ counterIncr c k, 0 < p.2 := by
  intro c
  induction c with
  | nil =>
    intro _ p hp
    simp only [counterIncr, List.mem_singleton] at hp
    rw [hp]
    norm_num
  | cons q r ih =>
    intro hc p hp
    rcases q with ⟨k0, n⟩
    by_cases h0 : k0 = k
    · simp only [counterIncr, if_pos h0] at hp
      rcases List.mem_cons.mp hp with rfl | h2
      · have := hc (k0, n) (List.mem_cons_self _ _)
        simp only at this ⊢
        omega
      · exact hc p (List.mem_cons_of_mem _ h2)
    · simp only [counterIncr, if_neg h0] at hp
      rcases List.mem_cons.mp hp with rfl | h2
      · exact hc (k0, n) (List.mem_cons_self _ _)
      · exact ih (fun p hp => hc p (List.mem_cons_of_mem _ hp)) p h2

theorem make_counter_pos_aux :
    ∀ (its : List (String × Int)) (acc : PCounter), (∀ p ∈ acc, 0 < p.2) →
      ∀ p ∈ its.foldl (fun c p => counterIncr c (mkCounterKey p.1 p.2)) acc, 0 < p.2 := by
  intro its
  induction its with
  | nil => intro acc h p hp; exact h p hp
  | cons q rest ih =>
    intro acc h p hp
    rw [List.foldl_cons] at hp
    exact ih _ (counterIncr_pos _ acc h) p hp

theorem make_counter_pos (items : List (String × Int)) :
    ∀ p ∈ make_counter items, 0 < p.2 :=
  make_counter_pos_aux items [] (by intro p hp; cases hp)

theorem make_counter_parses (items : List (String × Int))
    (hclean : ∀ q ∈ items, cleanSubj q.1 = true) :
    ∀ p ∈ make_counter items, parse_counter_key p.1 ≠ none := by
  intro p hp
  obtain ⟨q, hq, hk⟩ := make_counter_keys items p.1 (List.mem_map.mpr ⟨p, hp, rfl⟩)
  rw [hk, parse_mkKey_clean q.1 q.2 (hclean q hq)]
  simp

theorem diff_succeeds (old : PCounter) (items : List (String × Int))
    (hclean : ∀ q ∈ items, cleanSubj q.1 = true) :
    ∃ added, diff_new_grades old (make_counter items) = some added := by
  obtain ⟨a, ha, -⟩ := collectAdded_spec old (make_counter items)
    (make_counter_parses items hclean)
  refine ⟨a.insertionSort addedLe, ?_⟩
  unfold diff_new_grades
  rw [ha]

theorem analyze_items_some (items : List (String × Int)) (h : items ≠ []) :
    ∃ rep, analyze_items items = some rep := by
  cases items with
  | nil => exact absurd rfl h
  | cons i rest => exact ⟨_, rfl⟩

theorem Inv_ingestItems (items : List (String × Int)) (ts : String) (s : DB)
    (h : Inv s) : Inv (ingestItems items ts s).1 := by
  rcases hrep : analyze_items items with _ | rep
  · have he : (ingestItems items ts s).1 = ensure_user s := by
      simp [ingestItems, hrep]
    rw [he]
    exact Inv_ensure s h
  · rcases hdiff : diff_new_grades s.grade_counter (make_counter items) with _ | added
    · have he : (ingestItems items ts s).1 = ensure_user s := by
        simp [ingestItems, hrep, get_counter, ensure_user_grade_counter, hdiff]
      rw [he]
      exact Inv_ensure s h
    · obtain ⟨u0, hu⟩ := ensure_user_user_some s
      have hsucc := ingestItems_success items ts s rep added u0 hrep hu hdiff
      have hnid : (ingestItems items ts s).1.nextId = s.nextId + 1 := by rw [hsucc]
      have hsnap : (ingestItems items ts s).1.snapshots =
          trimKeep (s.snapshots ++ [(s.nextId, ⟨ts, rep.overall, rep.averages⟩)]) := by
        rw [hsucc]
      have hcs : (ingestItems items ts s).1.counter_snapshots =
          (s.nextId, make_counter items) ::
            ((s.counter_snapshots.filter (fun p =>
              !(removedIds (s.snapshots ++
                 [(s.nextId, ⟨ts, rep.overall, rep.averages⟩)])).contains p.1)).filter
              (fun p => p.1 ≠ s.nextId)) := by
        rw [hsucc]
      obtain ⟨hpos, hlen, hpair, hbound, hcnd, hcbound⟩ := h
      have hpair2 : ((s.snapshots ++
          [(s.nextId, (⟨ts, rep.overall, rep.averages⟩ : SnapData))]).map Prod.fst).Pairwise
          (· < ·) := by
        rw [List.map_append, List.pairwise_append]
        refine ⟨hpair, by simp, ?_⟩
        intro a ha b hb
        simp only [List.map_cons, List.map_nil, List.mem_singleton] at hb
        rw [hb]
        exact (hbound a ha).2
      unfold Inv
      rw [hnid, hsnap, hcs]
      refine ⟨by omega, ?_, ?_, ?_, ?_, ?_⟩
      · exact trimKeep_length_le _ hpair2
      · exact List.Pairwise.sublist (List.Sublist.map Prod.fst (List.filter_sublist _)) hpair2
      · intro i hi
        have hi2 : i ∈ (s.snapshots ++
            [(s.nextId, (⟨ts, rep.overall, rep.averages⟩ : SnapData))]).map Prod.fst :=
          (List.Sublist.map Prod.fst (List.filter_sublist _)).subset hi
        rw [List.map_append] at hi2
        rcases List.mem_append.mp hi2 with h3 | h3
        · obtain ⟨h4, h5⟩ := hbound i h3
          exact ⟨h4, by omega⟩
        · simp only [List.map_cons, List.map_nil, List.mem_singleton] at h3
          rw [h3]
          exact ⟨hpos, by omega⟩
      · rw [List.map_cons, List.nodup_cons]
        constructor
        · intro hmem
          obtain ⟨y, hy, hyid⟩ := List.mem_map.mp hmem
          rw [List.mem_filter] at hy
          have : ¬ y.1 = s.nextId := by simpa using hy.2
          exact this hyid
        · refine List.Nodup.sublist ?_ hcnd
          exact List.Sublist.map Prod.fst
            ((List.filter_sublist _).trans (List.filter_sublist _))
      · intro i hi
        rw [List.map_cons] at hi
        rcases List.mem_cons.mp hi with rfl | h3
        · omega
        · have : i ∈ s.counter_snapshots.map Prod.fst := by
            refine (List.Sublist.map Prod.fst
              ((List.filter_sublist _).trans (List.filter_sublist _))).subset h3
          have := hcbound i this
          omega

theorem newSnaps_length : ∀ (ds : List (List (String × Int) × String)) (nid : Nat),
    (newSnaps ds nid).length = ds.length := by
  intro ds
  induction ds with
  | nil => intro nid; rfl
  | cons p rest ih =>
    intro nid
    simp [newSnaps, ih]

theorem newSnaps_drop : ∀ (ds : List (List (String × Int) × String)) (k nid : Nat),
    (newSnaps ds nid).drop k = newSnaps (ds.drop k) (nid + k) := by
  intro ds
  induction ds with
  | nil => intro k nid; simp [newSnaps]
  | cons p rest ih =>
    intro k nid
    cases k with
    | zero => simp
    | succ k =>
      show (newSnaps rest (nid + 1)).drop k = newSnaps (rest.drop k) (nid + (k + 1))
      rw [ih k (nid + 1)]
      congr 1
      omega

theorem pairwise_append_snap (s : DB) (hInv : Inv s) (d : SnapData) :
    ((s.snapshots ++ [(s.nextId, d)]).map Prod.fst).Pairwise (· < ·) := by
  obtain ⟨-, -, hpair, hbound, -, -⟩ := hInv
  rw [List.map_append, List.pairwise_append]
  refine ⟨hpair, by simp, ?_⟩
  intro a ha b hb
  simp only [List.map_cons, List.map_nil, List.mem_singleton] at hb
  rw [hb]
  exact (hbound a ha).2

theorem fold_ingest_spec :
    ∀ (ds : List (List (String × Int) × String)) (s : DB), Inv s →
      (∀ p ∈ ds, p.1 ≠ [] ∧ ∀ q ∈ p.1, cleanSubj q.1 = true) →
      (ds.foldl (fun st q => (ingestItems q.1 q.2 st).1) s).snapshots =
          (s.snapshots ++ newSnaps ds s.nextId).drop
            (s.snapshots.length + ds.length - HISTORY_LIMIT) ∧
        (ds.foldl (fun st q => (ingestItems q.1 q.2 st).1) s).nextId =
          s.nextId + ds.length ∧
        Inv (ds.foldl (fun st q => (ingestItems q.1 q.2 st).1) s) := by
  intro ds
  induction ds with
  | nil =>
    intro s hInv _
    refine ⟨?_, by simp, hInv⟩
    have hl : s.snapshots.length ≤ HISTORY_LIMIT := hInv.2.1
    simp only [List.foldl_nil, newSnaps, List.append_nil, List.length_nil, Nat.add_zero]
    have h0 : s.snapshots.length - HISTORY_LIMIT = 0 := by omega
    rw [h0, List.drop_zero]
  | cons p rest ih =>
    intro s hInv hcond
    have hp := hcond p (List.mem_cons_self _ _)
    obtain ⟨rep, hrep⟩ := analyze_items_some p.1 hp.1
    obtain ⟨added, hdiff⟩ := diff_succeeds s.grade_counter p.1 hp.2
    obtain ⟨u0, hu⟩ := ensure_user_user_some s
    have hsucc := ingestItems_success p.1 p.2 s rep added u0 hrep hu hdiff
    have hInv1 : Inv (ingestItems p.1 p.2 s).1 := Inv_ingestItems p.1 p.2 s hInv
    have hnid1 : (ingestItems p.1 p.2 s).1.nextId = s.nextId + 1 := by rw [hsucc]
    have hd : (⟨p.2, rep.overall, rep.averages⟩ : SnapData) = mkSnapData p.1 p.2 := by
      unfold mkSnapData
      rw [hrep]
    have hsnap1 : (ingestItems p.1 p.2 s).1.snapshots =
        (s.snapshots ++ [(s.nextId, mkSnapData p.1 p.2)]).drop
          (s.snapshots.length + 1 - HISTORY_LIMIT) := by
      rw [hsucc]
      show trimKeep (s.snapshots ++ [(s.nextId, ⟨p.2, rep.overall, rep.averages⟩)]) = _
      rw [hd, trimKeep_eq_drop _ (pairwise_append_snap s hInv _)]
      congr 1
      simp
    have hfold : (p :: rest).foldl (fun st q => (ingestItems q.1 q.2 st).1) s
        = rest.foldl (fun st q => (ingestItems q.1 q.2 st).1) (ingestItems p.1 p.2 s).1 :=
      List.foldl_cons _ _
    obtain ⟨ihsnap, ihnid, ihInv⟩ :=
      ih (ingestItems p.1 p.2 s).1 hInv1 (fun q hq => hcond q (List.mem_cons_of_mem _ hq))
    have hsl : s.snapshots.length ≤ HISTORY_LIMIT := hInv.2.1
    refine ⟨?_, ?_, ?_⟩
    · rw [hfold, ihsnap, hsnap1, hnid1]
      have hk1le : s.snapshots.length + 1 - HISTORY_LIMIT ≤
          (s.snapshots ++ [(s.nextId, mkSnapData p.1 p.2)]).length := by
        simp only [List.length_append, List.length_cons, List.length_nil]
        omega
      rw [← List.drop_append_of_le_length hk1le, List.drop_drop]
      have hassoc : s.snapshots ++ newSnaps (p :: rest) s.nextId =
          (s.snapshots ++ [(s.nextId, mkSnapData p.1 p.2)]) ++
            newSnaps rest (s.nextId + 1) := by
        show s.snapshots ++ ((s.nextId, mkSnapData p.1 p.2) :: newSnaps rest (s.nextId + 1)) = _
        simp
      rw [hassoc]
      congr 1
      simp only [List.length_drop, List.length_append, List.length_cons, List.length_nil]
      omega
    · rw [hfold, ihnid, hnid1, List.length_cons]
      omega
    · rw [hfold]
      exact ihInv

/-- C6. Retention bound: starting from any reachable store, a run of
`HISTORY_LIMIT + 5` successful ingestions leaves exactly `HISTORY_LIMIT`
snapshots, namely the ones created by the last `HISTORY_LIMIT`
ingestions of the run (each ingestion deletes every snapshot older than
the newest `HISTORY_LIMIT`). -/
theorem c6_retention_bound (s : DB) (ds : List (List (String × Int) × String))
    (hInv : Inv s) (hlen : ds.length = HISTORY_LIMIT + 5)
    (hcond : ∀ p ∈ ds, p.1 ≠ [] ∧ ∀ q ∈ p.1, cleanSubj q.1 = true) :
    (ds.foldl (fun st q => (ingestItems q.1 q.2 st).1) s).snapshots =
        newSnaps (ds.drop 5) (s.nextId + 5) ∧
    (ds.foldl (fun st q => (ingestItems q.1 q.2 st).1) s).snapshots.length =
      HISTORY_LIMIT := by
  obtain ⟨hsnap, -, -⟩ := fold_ingest_spec ds s hInv hcond
  have h1 : s.snapshots.length + ds.length - HISTORY_LIMIT = s.snapshots.length + 5 := by
    have := hInv.2.1
    rw [hlen]
    omega
  rw [hsnap, h1, List.drop_append 5, newSnaps_drop]
  refine ⟨rfl, ?_⟩
  rw [newSnaps_length, List.length_drop, hlen]
  omega

/-- Witness for C6: 65 one-grade ingestions into a fresh store leave
exactly 60 snapshots. -/
theorem c6_retention_bound_witness :
    Inv DB.empty ∧
    ((List.replicate (HISTORY_LIMIT + 5) (([("a", 1)] : List (String × Int)), "t")).foldl
      (fun st q => (ingestItems q.1 q.2 st).1) DB.empty).snapshots.length =
      HISTORY_LIMIT := by
  have hInv : Inv DB.empty := by decide
  have hlen : (List.replicate (HISTORY_LIMIT + 5)
      (([("a", 1)] : List (String × Int)), "t")).length = HISTORY_LIMIT + 5 := by
    simp
  have hcond : ∀ p ∈ List.replicate (HISTORY_LIMIT + 5)
      (([("a", 1)] : List (String × Int)), "t"),
      p.1 ≠ [] ∧ ∀ q ∈ p.1, cleanSubj q.1 = true := by
    intro p hp
    rw [List.eq_of_mem_replicate hp]
    exact ⟨by decide, by decide⟩
  exact ⟨hInv, (c6_retention_bound DB.empty _ hInv hlen hcond).2⟩

theorem maxIdOf_snoc {α : Type} (l : List (Nat × α)) (nid : Nat) (d : α)
    (h : ∀ i ∈ l.map Prod.fst, i < nid) :
    maxIdOf ((l ++ [(nid, d)]).map Prod.fst) = some nid := by
  apply maxIdOf_eq
  · rw [List.map_append]
    exact List.mem_append_right _ (by simp)
  · intro i hi
    rw [List.map_append] at hi
    rcases List.mem_append.mp hi with h2 | h2
    · exact le_of_lt (h i h2)
    · simp only [List.map_cons, List.map_nil, List.mem_singleton] at h2
      omega

theorem ingest_snapshots_last (s : DB) (hInv : Inv s) (d : SnapData) :
    trimKeep (s.snapshots ++ [(s.nextId, d)]) =
      (s.snapshots.drop (s.snapshots.length + 1 - HISTORY_LIMIT)) ++ [(s.nextId, d)] := by
  rw [trimKeep_eq_drop _ (pairwise_append_snap s hInv d)]
  have hlen : (s.snapshots ++ [(s.nextId, d)]).length = s.snapshots.length + 1 := by
    simp
  rw [hlen]
  have hk : s.snapshots.length + 1 - HISTORY_LIMIT ≤ s.snapshots.length := by
    have h1 := hInv.2.1
    have hHL : HISTORY_LIMIT = 60 := rfl
    omega
  exact List.drop_append_of_le_length hk

theorem undo_nothing (t : DB) (u : URow) (hu : t.user = some u) (hsn : t.snapshots = []) :
    undo t = (t, UndoOutcome.nothingToUndo) := by
  have hens : ensure_user t = t := ensure_user_of_some t u hu
  have hlat : get_latest_snapshot_id t = none := by
    unfold get_latest_snapshot_id
    rw [hsn]
    rfl
  simp only [undo, hens, hlat]

theorem undo_cleared (s0 : DB) (last : Nat)
    (hlast : get_latest_snapshot_id (ensure_user s0) = some last)
    (hlast0 : ¬ last = 0)
    (hprev : get_latest_snapshot_id { ensure_user s0 with
        snapshots := (ensure_user s0).snapshots.filter (fun p => p.1 ≠ last),
        counter_snapshots :=
          (ensure_user s0).counter_snapshots.filter (fun p => p.1 ≠ last) } = none) :
    undo s0 = (set_counter [] (set_last_results none none
      { ensure_user s0 with
        snapshots := (ensure_user s0).snapshots.filter (fun p => p.1 ≠ last),
        counter_snapshots :=
          (ensure_user s0).counter_snapshots.filter (fun p => p.1 ≠ last) }),
      UndoOutcome.clearedAll) := by
  simp only [undo]
  split
  · rename_i heq
    rw [hlast] at heq
    cases heq
  · rename_i last' heq
    rw [hlast] at heq
    injection heq with heq
    subst heq
    rw [if_neg hlast0]
    split
    · rfl
    · rename_i prev' heq2
      rw [hprev] at heq2
      cases heq2

theorem undo_restored (s0 : DB) (u : URow) (hu : s0.user = some u)
    (last prev : Nat) (snap : SnapData)
    (hlast : get_latest_snapshot_id s0 = some last)
    (hlast0 : ¬ last = 0)
    (hprev : get_latest_snapshot_id { s0 with
        snapshots := s0.snapshots.filter (fun p => p.1 ≠ last),
        counter_snapshots :=
          s0.counter_snapshots.filter (fun p => p.1 ≠ last) } = some prev)
    (hprev0 : ¬ prev = 0)
    (hsnap : get_snapshot_data prev { s0 with
        snapshots := s0.snapshots.filter (fun p => p.1 ≠ last),
        counter_snapshots :=
          s0.counter_snapshots.filter (fun p => p.1 ≠ last) } = some snap) :
    undo s0 =
      (set_counter (get_counter_by_snapshot prev
          { s0 with
            snapshots := s0.snapshots.filter (fun p => p.1 ≠ last),
            counter_snapshots :=
              s0.counter_snapshots.filter (fun p => p.1 ≠ last) })
        (set_last_results (some snap.overall) (some snap.averages)
          { s0 with
            snapshots := s0.snapshots.filter (fun p => p.1 ≠ last),
            counter_snapshots :=
              s0.counter_snapshots.filter (fun p => p.1 ≠ last) }),
       UndoOutcome.restored snap.ts) := by
  have hens : ensure_user s0 = s0 := ensure_user_of_some s0 u hu
  simp only [undo, hens]
  split
  · rename_i heq
    rw [hlast] at heq
    cases heq
  · rename_i last' heq
    rw [hlast] at heq
    injection heq with heq
    subst heq
    rw [if_neg hlast0]
    split
    · rename_i heq2
      rw [hprev] at heq2
      cases heq2
    · rename_i prev' heq2
      rw [hprev] at heq2
      injection heq2 with heq2
      subst heq2
      rw [if_neg hprev0]
      split
      · rename_i heq3
        rw [hsnap] at heq3
        cases heq3
      · rename_i snap' heq3
        rw [hsnap] at heq3
        injection heq3 with heq3
        subst heq3
        rfl

theorem cleared_fields (R : DB) (u : URow) (hu : R.user = some u) :
    (set_counter [] (set_last_results none none R)).user =
        some { u with last_overall := none, last_averages := none } ∧
    (set_counter [] (set_last_results none none R)).grade_counter = [] ∧
    (set_counter [] (set_last_results none none R)).snapshots = R.snapshots ∧
    (set_counter [] (set_last_results none none R)).counter_snapshots =
      R.counter_snapshots := by
  have h1 : ensure_user R = R := ensure_user_of_some R u hu
  have h2 : set_last_results none none R =
      { R with user := some { u with last_overall := none, last_averages := none } } := by
    unfold set_last_results
    rw [h1]
    show ({ R with user := R.user.map (fun u =>
      { u with last_overall := none, last_averages := none }) } : DB) = _
    rw [hu]
    rfl
  have h3 : ensure_user
        { R with user := some { u with last_overall := none, last_averages := none } } =
      { R with user := some { u with last_overall := none, last_averages := none } } :=
    ensure_user_of_some _ _ rfl
  unfold set_counter
  rw [h2, h3]
  exact ⟨rfl, rfl, rfl, rfl⟩

/-- C7. Undo-to-empty: on a store holding exactly one snapshot, the undo
button deletes it and resets the cache — no last overall, no last
averages, empty grade multiset, empty history — and a second undo
reports "nothing to undo" and leaves the state completely unchanged. -/
theorem c7_undo_to_empty (s : DB) (hInv : Inv s) (hone : s.snapshots.length = 1) :
    get_last_overall (undo s).1 = none ∧
    get_last_averages_raw (undo s).1 = none ∧
    (undo s).1.grade_counter = [] ∧
    (undo s).1.snapshots = [] ∧
    (undo s).2 = UndoOutcome.clearedAll ∧
    undo (undo s).1 = ((undo s).1, UndoOutcome.nothingToUndo) := by
  rcases hs : s.snapshots with _ | ⟨⟨i, d⟩, rest⟩
  · rw [hs] at hone
    cases hone
  · have hrest : rest = [] := by
      rw [hs] at hone
      simpa using hone
    subst hrest
    have hi0 : ¬ i = 0 := by
      have := (hInv.2.2.2.1 i (by rw [hs]; simp)).1
      omega
    obtain ⟨u0, hu⟩ := ensure_user_user_some s
    have hens_sn : (ensure_user s).snapshots = [(i, d)] := by
      rw [ensure_user_snapshots, hs]
    have hlast : get_latest_snapshot_id (ensure_user s) = some i := by
      unfold get_latest_snapshot_id
      rw [hens_sn]
      rfl
    have hfilt : (ensure_user s).snapshots.filter (fun p => p.1 ≠ i) = [] := by
      rw [hens_sn]
      simp
    have hprev : get_latest_snapshot_id { ensure_user s with
        snapshots := (ensure_user s).snapshots.filter (fun p => p.1 ≠ i),
        counter_snapshots :=
          (ensure_user s).counter_snapshots.filter (fun p => p.1 ≠ i) } = none := by
      show maxIdOf (((ensure_user s).snapshots.filter (fun p => p.1 ≠ i)).map Prod.fst)
        = none
      rw [hfilt]
      rfl
    have hundo := undo_cleared s i hlast hi0 hprev
    obtain ⟨hfu, hfc, hfs, hfcs⟩ := cleared_fields
      { ensure_user s with
        snapshots := (ensure_user s).snapshots.filter (fun p => p.1 ≠ i),
        counter_snapshots :=
          (ensure_user s).counter_snapshots.filter (fun p => p.1 ≠ i) } u0 hu
    have hsn0 : (undo s).1.snapshots = [] := by
      rw [hundo]
      show (set_counter [] (set_last_results none none _)).snapshots = []
      rw [hfs]
      exact hfilt
    have huser : (undo s).1.user =
        some { u0 with last_overall := none, last_averages := none } := by
      rw [hundo]
      exact hfu
    refine ⟨?_, ?_, ?_, hsn0, ?_, ?_⟩
    · unfold get_last_overall
      rw [ensure_user_of_some _ _ huser, huser]
      rfl
    · unfold get_last_averages_raw
      rw [ensure_user_of_some _ _ huser, huser]
      rfl
    · rw [hundo]
      exact hfc
    · rw [hundo]
    · exact undo_nothing (undo s).1 _ huser hsn0

/-- Witness for C7 at the store produced by one concrete ingestion. -/
theorem c7_undo_to_empty_witness :
    Inv (ingestItems [("a", 1)] "t" DB.empty).1 ∧
    (undo (ingestItems [("a", 1)] "t" DB.empty).1).1.grade_counter = [] ∧
    undo (undo (ingestItems [("a", 1)] "t" DB.empty).1).1 =
      ((undo (ingestItems [("a", 1)] "t" DB.empty).1).1, UndoOutcome.nothingToUndo) := by
  have hInv : Inv (ingestItems [("a", 1)] "t" DB.empty).1 :=
    Inv_ingestItems [("a", 1)] "t" DB.empty (by decide)
  have hone : (ingestItems [("a", 1)] "t" DB.empty).1.snapshots.length = 1 := by
    obtain ⟨rep, hrep⟩ := analyze_items_some [("a", 1)] (by decide)
    obtain ⟨added, hdiff⟩ := diff_succeeds DB.empty.grade_counter [("a", 1)] (by decide)
    obtain ⟨u0, hu⟩ := ensure_user_user_some DB.empty
    rw [ingestItems_success [("a", 1)] "t" DB.empty rep added u0 hrep hu hdiff]
    rfl
  obtain ⟨-, -, hc, -, -, hagain⟩ := c7_undo_to_empty _ hInv hone
  exact ⟨hInv, hc, hagain⟩

theorem keepPred_true_of (l : List (Nat × SnapData)) (x : Nat × SnapData)
    (h : l.countP (fun y => decide (x.1 < y.1)) < HISTORY_LIMIT) : keepPred l x = true := by
  unfold keepPred
  simpa using h

theorem restored_fields (R : DB) (u : URow) (hu : R.user = some u) (o : Rat)
    (a : List (String × Rat)) (c : PCounter) :
    (set_counter c (set_last_results (some o) (some a) R)).user =
        some { u with last_overall := some o, last_averages := some a } ∧
    (set_counter c (set_last_results (some o) (some a) R)).grade_counter = c := by
  have h1 : ensure_user R = R := ensure_user_of_some R u hu
  have h2 : set_last_results (some o) (some a) R =
      { R with user := some { u with last_overall := some o, last_averages := some a } } := by
    unfold set_last_results
    rw [h1]
    show ({ R with user := R.user.map (fun u =>
      { u with last_overall := some o, last_averages := some a }) } : DB) = _
    rw [hu]
    rfl
  have h3 : ensure_user
        { R with user := some { u with last_overall := some o, last_averages := some a } } =
      { R with user := some { u with last_overall := some o, last_averages := some a } } :=
    ensure_user_of_some _ _ rfl
  unfold set_counter
  rw [h2, h3]
  exact ⟨rfl, rfl⟩

/-- C1. Snapshot/undo round-trip: ingest file A, then file B, then undo;
the cached last overall, the cached per-subject averages and the stored
grade multiset are exactly what they were right after ingesting A (the
model's rationals are exact, so the restored state is the stored state,
bit for bit). Holds from every reachable store. -/
theorem c1_snapshot_undo_round_trip (s : DB) (itemsA itemsB : List (String × Int))
    (tsA tsB : String) (hInv : Inv s)
    (hA : itemsA ≠ []) (hcA : ∀ q ∈ itemsA, cleanSubj q.1 = true)
    (hB : itemsB ≠ []) (hcB : ∀ q ∈ itemsB, cleanSubj q.1 = true) :
    get_last_overall (undo (ingestItems itemsB tsB (ingestItems itemsA tsA s).1).1).1 =
      get_last_overall (ingestItems itemsA tsA s).1 ∧
    get_last_averages_raw (undo (ingestItems itemsB tsB (ingestItems itemsA tsA s).1).1).1 =
      get_last_averages_raw (ingestItems itemsA tsA s).1 ∧
    (undo (ingestItems itemsB tsB (ingestItems itemsA tsA s).1).1).1.grade_counter =
      (ingestItems itemsA tsA s).1.grade_counter := by
  have hHL : HISTORY_LIMIT = 60 := rfl
  obtain ⟨repA, hrepA⟩ := analyze_items_some itemsA hA
  obtain ⟨addedA, hdiffA⟩ := diff_succeeds s.grade_counter itemsA hcA
  obtain ⟨u0, hu⟩ := ensure_user_user_some s
  have hsA := ingestItems_success itemsA tsA s repA addedA u0 hrepA hu hdiffA
  obtain ⟨s1, hs1def⟩ : ∃ t : DB, (ingestItems itemsA tsA s).1 = t := ⟨_, rfl⟩
  rw [hs1def]
  have hInv1 : Inv s1 := by
    rw [← hs1def]
    exact Inv_ingestItems itemsA tsA s hInv
  have h1u : s1.user = some { u0 with
      last_overall := some repA.overall,
      last_averages := some repA.averages } := by rw [← hs1def, hsA]
  have h1c : s1.grade_counter = make_counter itemsA := by rw [← hs1def, hsA]
  have h1n : s1.nextId = s.nextId + 1 := by rw [← hs1def, hsA]
  have h1sn : s1.snapshots =
      s.snapshots.drop (s.snapshots.length + 1 - HISTORY_LIMIT) ++
        [(s.nextId, ⟨tsA, repA.overall, repA.averages⟩)] := by
    rw [← hs1def, hsA]
    exact ingest_snapshots_last s hInv _
  have h1csE : ∃ F1, s1.counter_snapshots =
      (s.nextId, make_counter itemsA) :: F1 := ⟨_, by rw [← hs1def, hsA]⟩
  obtain ⟨F1, h1cs⟩ := h1csE
  obtain ⟨repB, hrepB⟩ := analyze_items_some itemsB hB
  obtain ⟨addedB, hdiffB⟩ := diff_succeeds s1.grade_counter itemsB hcB
  have h1usome : (ensure_user s1).user = some { u0 with
      last_overall := some repA.overall,
      last_averages := some repA.averages } := by
    rw [ensure_user_of_some s1 _ h1u]
    exact h1u
  have hsB := ingestItems_success itemsB tsB s1 repB addedB _ hrepB h1usome hdiffB
  obtain ⟨s2, hs2def⟩ : ∃ t : DB, (ingestItems itemsB tsB s1).1 = t := ⟨_, rfl⟩
  rw [hs2def]
  have h2u : s2.user = some { u0 with
      last_overall := some repB.overall,
      last_averages := some repB.averages } := by rw [← hs2def, hsB]
  have h2n : s2.nextId = s1.nextId + 1 := by rw [← hs2def, hsB]
  have h2sn : s2.snapshots =
      s1.snapshots.drop (s1.snapshots.length + 1 - HISTORY_LIMIT) ++
        [(s1.nextId, ⟨tsB, repB.overall, repB.averages⟩)] := by
    rw [← hs2def, hsB]
    exact ingest_snapshots_last s1 hInv1 _
  -- the A snapshot survives B's retention trim
  have hmemA1 : ((s.nextId, (⟨tsA, repA.overall, repA.averages⟩ : SnapData))) ∈
      s1.snapshots := by
    rw [h1sn]
    exact List.mem_append_right _ (by simp)
  have hpairB := pairwise_append_snap s1 hInv1 (⟨tsB, repB.overall, repB.averages⟩ : SnapData)
  have hnodupB : ((s1.snapshots ++
      [(s1.nextId, (⟨tsB, repB.overall, repB.averages⟩ : SnapData))]).map Prod.fst).Nodup :=
    List.Pairwise.imp (fun h => ne_of_lt h) hpairB
  have hubound1 : ∀ y ∈ s1.snapshots, y.1 ≤ s.nextId := by
    intro y hy
    rw [h1sn] at hy
    rcases List.mem_append.mp hy with hy | hy
    · have hmm : y.1 ∈ s.snapshots.map Prod.fst :=
        List.mem_map.mpr ⟨y, (List.drop_sublist _ _).subset hy, rfl⟩
      exact le_of_lt (hInv.2.2.2.1 _ hmm).2
    · simp only [List.mem_singleton] at hy
      rw [hy]
  have hkeepA : keepPred (s1.snapshots ++
      [(s1.nextId, (⟨tsB, repB.overall, repB.averages⟩ : SnapData))])
      ((s.nextId, (⟨tsA, repA.overall, repA.averages⟩ : SnapData))) = true := by
    apply keepPred_true_of
    show (s1.snapshots ++
      [(s1.nextId, (⟨tsB, repB.overall, repB.averages⟩ : SnapData))]).countP
        (fun y => decide (s.nextId < y.1)) < HISTORY_LIMIT
    rw [List.countP_append]
    have hc1 : s1.snapshots.countP (fun y => decide (s.nextId < y.1)) = 0 := by
      rw [List.countP_eq_zero]
      intro y hy
      have := hubound1 y hy
      simp only [decide_eq_true_eq]
      omega
    have hc2 : ([(s1.nextId, (⟨tsB, repB.overall, repB.averages⟩ : SnapData))]).countP
        (fun y => decide (s.nextId < y.1)) = 1 := by
      simp [h1n]
    rw [hc1, hc2, hHL]
    omega
  have hremA : ¬ (s.nextId) ∈ removedIds (s1.snapshots ++
      [(s1.nextId, (⟨tsB, repB.overall, repB.averages⟩ : SnapData))]) := by
    have := not_mem_removedIds _ _ hnodupB (List.mem_append_left _ hmemA1) hkeepA
    exact this
  have hne12 : s.nextId ≠ s1.nextId := by
    rw [h1n]
    omega
  have h2csE : ∃ G, s2.counter_snapshots =
      (s1.nextId, make_counter itemsB) :: (s.nextId, make_counter itemsA) :: G := by
    refine ⟨(F1.filter (fun p =>
      !(removedIds (s1.snapshots ++
        [(s1.nextId, (⟨tsB, repB.overall, repB.averages⟩ : SnapData))])).contains
        p.1)).filter (fun p => p.1 ≠ s1.nextId), ?_⟩
    rw [← hs2def, hsB]
    show (s1.nextId, make_counter itemsB) ::
      ((s1.counter_snapshots.filter (fun p =>
        !(removedIds (s1.snapshots ++
          [(s1.nextId, ⟨tsB, repB.overall, repB.averages⟩)])).contains p.1)).filter
        (fun p => p.1 ≠ s1.nextId)) = _
    congr 1
    rw [h1cs, List.filter_cons]
    have ccontains : ((removedIds (s1.snapshots ++
        [(s1.nextId, (⟨tsB, repB.overall, repB.averages⟩ : SnapData))])).contains
        (s.nextId)) = false := by
      simp [hremA]
    rw [if_pos (show (!(removedIds (s1.snapshots ++
        [(s1.nextId, (⟨tsB, repB.overall, repB.averages⟩ : SnapData))])).contains
        ((s.nextId, make_counter itemsA) : Nat × PCounter).1) = true by
      show (!(removedIds _).contains (s.nextId)) = true
      rw [ccontains]
      rfl)]
    rw [List.filter_cons]
    rw [if_pos (show (decide (((s.nextId, make_counter itemsA) : Nat × PCounter).1 ≠
        s1.nextId)) = true from decide_eq_true hne12)]
  obtain ⟨G, h2cs⟩ := h2csE
  -- undo
  have hlastB : get_latest_snapshot_id s2 = some s1.nextId := by
    unfold get_latest_snapshot_id
    rw [h2sn]
    apply maxIdOf_snoc
    intro i hi
    obtain ⟨y, hy, rfl⟩ := List.mem_map.mp hi
    have hmm : y.1 ∈ s1.snapshots.map Prod.fst :=
      List.mem_map.mpr ⟨y, (List.drop_sublist _ _).subset hy, rfl⟩
    exact (hInv1.2.2.2.1 y.1 hmm).2
  have hlastB0 : ¬ s1.nextId = 0 := by
    have := hInv1.1
    omega
  have hfiltB : s2.snapshots.filter (fun p => p.1 ≠ s1.nextId) =
      s1.snapshots.drop (s1.snapshots.length + 1 - HISTORY_LIMIT) := by
    rw [h2sn, List.filter_append]
    have hall : (s1.snapshots.drop (s1.snapshots.length + 1 - HISTORY_LIMIT)).filter
        (fun p => p.1 ≠ s1.nextId) =
        s1.snapshots.drop (s1.snapshots.length + 1 - HISTORY_LIMIT) := by
      apply List.filter_eq_self.mpr
      intro y hy
      have hyid : y.1 ∈ s1.snapshots.map Prod.fst :=
        List.mem_map.mpr ⟨y, (List.drop_sublist _ _).subset hy, rfl⟩
      have := (hInv1.2.2.2.1 y.1 hyid).2
      exact decide_eq_true (by omega)
    have hsingle : ([(s1.nextId, (⟨tsB, repB.overall, repB.averages⟩ : SnapData))]).filter
        (fun p => p.1 ≠ s1.nextId) = [] := by
      simp
    rw [hall, hsingle, List.append_nil]
  have htailB : s1.snapshots.drop (s1.snapshots.length + 1 - HISTORY_LIMIT) =
      (s.snapshots.drop (s.snapshots.length + 1 - HISTORY_LIMIT)).drop
          (s1.snapshots.length + 1 - HISTORY_LIMIT) ++
        [(s.nextId, ⟨tsA, repA.overall, repA.averages⟩)] := by
    rw [h1sn]
    apply List.drop_append_of_le_length
    simp only [List.length_append, List.length_drop, List.length_cons, List.length_nil]
    omega
  have hprevA : get_latest_snapshot_id { s2 with
      snapshots := s2.snapshots.filter (fun p => p.1 ≠ s1.nextId),
      counter_snapshots := s2.counter_snapshots.filter (fun p => p.1 ≠ s1.nextId) } =
      some s.nextId := by
    show maxIdOf ((s2.snapshots.filter (fun p => p.1 ≠ s1.nextId)).map Prod.fst) =
      some s.nextId
    rw [hfiltB, htailB]
    apply maxIdOf_snoc
    intro i hi
    obtain ⟨y, hy, rfl⟩ := List.mem_map.mp hi
    have hmm : y.1 ∈ s.snapshots.map Prod.fst :=
      List.mem_map.mpr ⟨y,
        (List.drop_sublist _ _).subset ((List.drop_sublist _ _).subset hy), rfl⟩
    exact (hInv.2.2.2.1 y.1 hmm).2
  have hprevA0 : ¬ s.nextId = 0 := by
    have := hInv.1
    omega
  have hsnapA : get_snapshot_data s.nextId { s2 with
      snapshots := s2.snapshots.filter (fun p => p.1 ≠ s1.nextId),
      counter_snapshots := s2.counter_snapshots.filter (fun p => p.1 ≠ s1.nextId) } =
      some (⟨tsA, repA.overall, repA.averages⟩ : SnapData) := by
    show ((s2.snapshots.filter (fun p => p.1 ≠ s1.nextId)).find?
      (fun p => p.1 = s.nextId)).map Prod.snd = _
    rw [hfiltB, htailB]
    have hfront : ∀ x ∈ (s.snapshots.drop (s.snapshots.length + 1 - HISTORY_LIMIT)).drop
        (s1.snapshots.length + 1 - HISTORY_LIMIT),
        (fun p => decide ((p : Nat × SnapData).1 = s.nextId)) x = false := by
      intro x hx
      have hmm : x.1 ∈ s.snapshots.map Prod.fst :=
        List.mem_map.mpr ⟨x,
          (List.drop_sublist _ _).subset ((List.drop_sublist _ _).subset hx), rfl⟩
      have := (hInv.2.2.2.1 x.1 hmm).2
      simp only [decide_eq_false_iff_not]
      omega
    rw [find?_append_of_none _ _ _ hfront, List.find?_cons]
    simp
  have hcsB : get_counter_by_snapshot s.nextId { s2 with
      snapshots := s2.snapshots.filter (fun p => p.1 ≠ s1.nextId),
      counter_snapshots := s2.counter_snapshots.filter (fun p => p.1 ≠ s1.nextId) } =
      make_counter itemsA := by
    show (((s2.counter_snapshots.filter (fun p => p.1 ≠ s1.nextId)).find?
      (fun p => p.1 = s.nextId)).map Prod.snd).getD [] = _
    rw [h2cs, List.filter_cons]
    have c1 : (decide (((s1.nextId, make_counter itemsB) : Nat × PCounter).1 ≠ s1.nextId))
        = false := by
      simp
    rw [c1]
    simp only [Bool.false_eq_true, if_false]
    rw [List.filter_cons]
    rw [if_pos (show (decide (((s.nextId, make_counter itemsA) : Nat × PCounter).1 ≠
        s1.nextId)) = true from decide_eq_true hne12)]
    rw [List.find?_cons]
    simp
  have hundo := undo_restored s2 _ h2u s1.nextId s.nextId
    ⟨tsA, repA.overall, repA.averages⟩ hlastB hlastB0 hprevA hprevA0 hsnapA
  obtain ⟨hfu, hfc⟩ := restored_fields
    { s2 with
      snapshots := s2.snapshots.filter (fun p => p.1 ≠ s1.nextId),
      counter_snapshots := s2.counter_snapshots.filter (fun p => p.1 ≠ s1.nextId) }
    { u0 with last_overall := some repB.overall, last_averages := some repB.averages }
    h2u ((⟨tsA, repA.overall, repA.averages⟩ : SnapData).overall)
    ((⟨tsA, repA.overall, repA.averages⟩ : SnapData).averages)
    (get_counter_by_snapshot s.nextId { s2 with
      snapshots := s2.snapshots.filter (fun p => p.1 ≠ s1.nextId),
      counter_snapshots := s2.counter_snapshots.filter (fun p => p.1 ≠ s1.nextId) })
  have hfinu : (undo s2).1.user = some { u0 with
      last_overall := some repA.overall,
      last_averages := some repA.averages } := by
    rw [hundo]
    exact hfu
  have hfinc : (undo s2).1.grade_counter = make_counter itemsA := by
    rw [hundo]
    exact hfc.trans hcsB
  refine ⟨?_, ?_, ?_⟩
  · show ((ensure_user (undo s2).1).user.getD URow.init).last_overall =
      ((ensure_user s1).user.getD URow.init).last_overall
    rw [ensure_user_of_some _ _ hfinu, ensure_user_of_some _ _ h1u, hfinu, h1u]
  · show ((ensure_user (undo s2).1).user.getD URow.init).last_averages =
      ((ensure_user s1).user.getD URow.init).last_averages
    rw [ensure_user_of_some _ _ hfinu, ensure_user_of_some _ _ h1u, hfinu, h1u]
  · exact hfinc.trans h1c.symm

/-- Witness for C1 at two concrete ingestions into a fresh store. -/
theorem c1_snapshot_undo_round_trip_witness :
    Inv DB.empty ∧
    (undo (ingestItems [("a", 2)] "t2"
        (ingestItems [("a", 1)] "t1" DB.empty).1).1).1.grade_counter =
      (ingestItems [("a", 1)] "t1" DB.empty).1.grade_counter := by
  have hInv : Inv DB.empty := by decide
  refine ⟨hInv, ?_⟩
  exact (c1_snapshot_undo_round_trip DB.empty [("a", 1)] [("a", 2)] "t1" "t2" hInv
    (by decide) (by decide) (by decide) (by decide)).2.2

theorem cacheConsistent_ingest (items : List (String × Int)) (ts : String) (s : DB)
    (hInv : Inv s) (hne : items ≠ []) (hclean : ∀ q ∈ items, cleanSubj q.1 = true) :
    cacheConsistent (ingestItems items ts s).1 = true := by
  obtain ⟨rep, hrep⟩ := analyze_items_some items hne
  obtain ⟨added, hdiff⟩ := diff_succeeds s.grade_counter items hclean
  obtain ⟨u0, hu⟩ := ensure_user_user_some s
  have hsucc := ingestItems_success items ts s rep added u0 hrep hu hdiff
  obtain ⟨t, htdef⟩ : ∃ t : DB, (ingestItems items ts s).1 = t := ⟨_, rfl⟩
  rw [htdef]
  have htu : t.user = some { u0 with
      last_overall := some rep.overall,
      last_averages := some rep.averages } := by rw [← htdef, hsucc]
  have htc : t.grade_counter = make_counter items := by rw [← htdef, hsucc]
  have htsn : t.snapshots =
      s.snapshots.drop (s.snapshots.length + 1 - HISTORY_LIMIT) ++
        [(s.nextId, ⟨ts, rep.overall, rep.averages⟩)] := by
    rw [← htdef, hsucc]
    exact ingest_snapshots_last s hInv _
  have htcsE : ∃ F, t.counter_snapshots = (s.nextId, make_counter items) :: F :=
    ⟨_, by rw [← htdef, hsucc]⟩
  obtain ⟨F, htcs⟩ := htcsE
  have hlatest : get_latest_snapshot_id t = some s.nextId := by
    unfold get_latest_snapshot_id
    rw [htsn]
    apply maxIdOf_snoc
    intro i hi
    obtain ⟨y, hy, rfl⟩ := List.mem_map.mp hi
    have hmm : y.1 ∈ s.snapshots.map Prod.fst :=
      List.mem_map.mpr ⟨y, (List.drop_sublist _ _).subset hy, rfl⟩
    exact (hInv.2.2.2.1 y.1 hmm).2
  have hdata : get_snapshot_data s.nextId t =
      some (⟨ts, rep.overall, rep.averages⟩ : SnapData) := by
    unfold get_snapshot_data
    rw [htsn]
    have hfront : ∀ x ∈ s.snapshots.drop (s.snapshots.length + 1 - HISTORY_LIMIT),
        (fun p => decide ((p : Nat × SnapData).1 = s.nextId)) x = false := by
      intro x hx
      have hmm : x.1 ∈ s.snapshots.map Prod.fst :=
        List.mem_map.mpr ⟨x, (List.drop_sublist _ _).subset hx, rfl⟩
      have := (hInv.2.2.2.1 x.1 hmm).2
      simp only [decide_eq_false_iff_not]
      omega
    rw [find?_append_of_none _ _ _ hfront, List.find?_cons]
    simp
  have hlook : get_counter_by_snapshot s.nextId t = make_counter items := by
    unfold get_counter_by_snapshot
    rw [htcs, List.find?_cons]
    simp
  simp only [cacheConsistent, hlatest, hdata]
  have e1 : decide ((t.user.getD URow.init).last_overall =
      some (⟨ts, rep.overall, rep.averages⟩ : SnapData).overall) = true :=
    decide_eq_true (by rw [htu]; rfl)
  have e2 : decide ((t.user.getD URow.init).last_averages =
      some (⟨ts, rep.overall, rep.averages⟩ : SnapData).averages) = true :=
    decide_eq_true (by rw [htu]; rfl)
  have e3 : decide (t.grade_counter = get_counter_by_snapshot s.nextId t) = true :=
    decide_eq_true (by rw [htc, hlook])
  rw [e1, e2, e3]
  rfl

theorem ingestUpTo_four (items : List (String × Int)) (ts : String) (s : DB)
    (rep : Report) (added : List (String × Int × Int))
    (hrep : analyze_items items = some rep)
    (hdiff : diff_new_grades s.grade_counter (make_counter items) = some added) :
    ingestUpTo 4 items ts s = (ingestItems items ts s).1 := by
  simp only [ingestUpTo, ingestItems, get_counter, ensure_user_grade_counter, hrep, hdiff]
  rfl

theorem cacheConsistent_step1_false (items : List (String × Int)) (ts : String) (s : DB)
    (rep : Report) (u : URow) (i : Nat) (d : SnapData)
    (hrep : analyze_items items = some rep) (hu : s.user = some u)
    (hlatest : get_latest_snapshot_id s = some i)
    (hdata : get_snapshot_data i s = some d)
    (hmm : ¬ make_counter items = get_counter_by_snapshot i s) :
    cacheConsistent (ingestUpTo 1 items ts s) = false := by
  have hens : ensure_user s = s := ensure_user_of_some s u hu
  have ht1 : ingestUpTo 1 items ts s = { s with grade_counter := make_counter items } := by
    simp only [ingestUpTo, hrep, hens, set_counter]
    norm_num
  rw [ht1]
  have hl2 : get_latest_snapshot_id { s with grade_counter := make_counter items } =
      some i := hlatest
  have hd2 : get_snapshot_data i { s with grade_counter := make_counter items } =
      some d := hdata
  simp only [cacheConsistent, hl2, hd2]
  have e3 : decide (({ s with grade_counter := make_counter items } : DB).grade_counter =
      get_counter_by_snapshot i { s with grade_counter := make_counter items }) = false :=
    decide_eq_false (by
      show ¬ make_counter items = get_counter_by_snapshot i s
      exact hmm)
  rw [e3, Bool.and_false]

/-- C2. Ingestion is not atomic: the four writes of a successful
ingestion are separately committed sqlite transactions; when they all
run the cache and the newest snapshot agree, but a run that stops after
the first transaction (`set_counter`) leaves the stored multiset ahead
of the snapshot history — the partial write the spec says must be
impossible is observable. -/
theorem c2_ingestion_not_atomic :
    cacheConsistent (ingestItems [("Math", 5)] "t1" DB.empty).1 = true ∧
    ingestUpTo 4 [("Math", 4)] "t2" (ingestItems [("Math", 5)] "t1" DB.empty).1 =
      (ingestItems [("Math", 4)] "t2" (ingestItems [("Math", 5)] "t1" DB.empty).1).1 ∧
    cacheConsistent
      (ingestUpTo 1 [("Math", 4)] "t2" (ingestItems [("Math", 5)] "t1" DB.empty).1) =
      false := by
  have hInv0 : Inv DB.empty := by decide
  obtain ⟨repA, hrepA⟩ := analyze_items_some [("Math", 5)] (by decide)
  obtain ⟨addedA, hdiffA⟩ := diff_succeeds DB.empty.grade_counter [("Math", 5)] (by decide)
  have hu0 : (ensure_user DB.empty).user = some URow.init := rfl
  have hsA := ingestItems_success [("Math", 5)] "t1" DB.empty repA addedA URow.init
    hrepA hu0 hdiffA
  refine ⟨cacheConsistent_ingest _ _ _ hInv0 (by decide) (by decide), ?_, ?_⟩
  · obtain ⟨repB, hrepB⟩ := analyze_items_some [("Math", 4)] (by decide)
    obtain ⟨addedB, hdiffB⟩ := diff_succeeds
      (ingestItems [("Math", 5)] "t1" DB.empty).1.grade_counter [("Math", 4)] (by decide)
    exact ingestUpTo_four _ _ _ repB addedB hrepB hdiffB
  · obtain ⟨repB, hrepB⟩ := analyze_items_some [("Math", 4)] (by decide)
    have huA : (ingestItems [("Math", 5)] "t1" DB.empty).1.user = some { URow.init with
        last_overall := some repA.overall,
        last_averages := some repA.averages } := by rw [hsA]
    have hlatest : get_latest_snapshot_id (ingestItems [("Math", 5)] "t1" DB.empty).1 =
        some 1 := by
      rw [hsA]
      rfl
    have hdata : get_snapshot_data 1 (ingestItems [("Math", 5)] "t1" DB.empty).1 =
        some (⟨"t1", repA.overall, repA.averages⟩ : SnapData) := by
      rw [hsA]
      rfl
    have hmm : ¬ make_counter [("Math", 4)] =
        get_counter_by_snapshot 1 (ingestItems [("Math", 5)] "t1" DB.empty).1 := by
      rw [hsA]
      show ¬ make_counter [("Math", 4)] = make_counter [("Math", 5)]
      decide
    exact cacheConsistent_step1_false [("Math", 4)] "t2"
      (ingestItems [("Math", 5)] "t1" DB.empty).1 repB _ 1
      (⟨"t1", repA.overall, repA.averages⟩ : SnapData) hrepB huA hlatest hdata hmm

/-- C3 counterexample: ingesting a file with two fives and then a file
with one five makes the stored count of (M, 5) drop from 2 to 1 — the
claimed key-wise monotonicity across ingestions fails. -/
theorem c3_monotonicity_counterexample :
    counterGet (ingestItems [("M", 5), ("M", 5)] "t1" DB.empty).1.grade_counter
        (mkCounterKey "M" 5) = 2 ∧
    counterGet (ingestItems [("M", 5)] "t2"
        (ingestItems [("M", 5), ("M", 5)] "t1" DB.empty).1).1.grade_counter
        (mkCounterKey "M" 5) = 1 := by
  constructor
  · decide
  · decide

/-- C3 (amended): stored counts are always positive (in particular
non-negative), and a successful ingestion wholesale-replaces the stored
multiset with the multiset built from the new file, so a key's count
decreases exactly when the new file holds fewer occurrences —
monotonicity is a property of the inputs, not enforced by the code. -/
theorem c3_replacement_and_positivity (items : List (String × Int)) (ts : String)
    (s : DB) (hne : items ≠ []) (hclean : ∀ q ∈ items, cleanSubj q.1 = true) :
    (ingestItems items ts s).1.grade_counter = make_counter items ∧
    ∀ p ∈ make_counter items, 0 < p.2 := by
  obtain ⟨rep, hrep⟩ := analyze_items_some items hne
  obtain ⟨added, hdiff⟩ := diff_succeeds s.grade_counter items hclean
  obtain ⟨u0, hu⟩ := ensure_user_user_some s
  refine ⟨?_, make_counter_pos items⟩
  rw [ingestItems_success items ts s rep added u0 hrep hu hdiff]

/-- Witness for the amended C3 at a concrete ingestion. -/
theorem c3_replacement_and_positivity_witness :
    (([("M", 5)] : List (String × Int)) ≠ []) ∧
    (ingestItems [("M", 5)] "t" DB.empty).1.grade_counter = make_counter [("M", 5)] := by
  have hne : (([("M", 5)] : List (String × Int)) ≠ []) := by decide
  have hclean : ∀ q ∈ ([("M", 5)] : List (String × Int)), cleanSubj q.1 = true := by decide
  exact ⟨hne, (c3_replacement_and_positivity [("M", 5)] "t" DB.empty hne hclean).1⟩

/-- C9 counterexample: a user whose `awaiting_time` flag is set sends the
malformed time string "xx"; the handler answers with the bad-time message
but also persists `awaiting_time := 0` through `set_user_fields`, so the
failed interaction does modify a stored user-row field. -/
theorem c9_state_mutation_counterexample :
    parseHHMM "xx" = none ∧
    (on_text "xx" { DB.empty with
      user := some { URow.init with awaiting_time := 1 } }).2 = TextOutcome.badTime ∧
    (on_text "xx" { DB.empty with
      user := some { URow.init with awaiting_time := 1 } }).1.user =
      some { URow.init with awaiting_time := 0 } ∧
    (on_text "xx" { DB.empty with
      user := some { URow.init with awaiting_time := 1 } }).1 ≠
      { DB.empty with
        user := some { URow.init with awaiting_time := 1 } } := by
  refine ⟨rfl, rfl, rfl, ?_⟩
  decide

/-- C9 (amended): a wrong file extension returns before touching any
state; an unreadable workbook or one with no grades changes nothing
beyond `ensure_user`'s idempotent row creation; but a malformed custom
time string is not mutation-free — it persists `awaiting_time := 0` in
the user row (all other fields and tables unchanged). -/
theorem c9_error_paths :
    (∀ (dl : Bool) (g : Option (List (Cell × List Cell))) (ts : String) (s : DB),
      on_document false dl g ts s = (s, DocOutcome.badExtension)) ∧
    (∀ (ts : String) (s : DB),
      on_document true true none ts s = (ensure_user s, DocOutcome.parseCrashed)) ∧
    (∀ (grid : List (Cell × List Cell)) (ts : String) (s : DB),
      parse_excel_grades grid = [] →
      on_document true true (some grid) ts s = (ensure_user s, DocOutcome.noGrades)) ∧
    (∀ (txt : String) (s : DB) (u : URow), s.user = some u → u.awaiting_time ≠ 0 →
      parseHHMM txt = none →
      on_text txt s = ({ s with
        user := some { u with awaiting_time := 0 } }, TextOutcome.badTime)) := by
  refine ⟨fun dl g ts s => rfl, fun ts s => rfl, ?_, ?_⟩
  · intro grid ts s h
    show ingestItems (parse_excel_grades grid) ts (ensure_user s) =
      (ensure_user s, DocOutcome.noGrades)
    rw [h]
    obtain ⟨u0, hu⟩ := ensure_user_user_some s
    have hens := ensure_user_of_some _ u0 hu
    show (ensure_user (ensure_user s), DocOutcome.noGrades) = _
    rw [hens]
  · intro txt s u hu hne hp
    have hens : ensure_user s = s := ensure_user_of_some s u hu
    simp only [on_text, hens, hu, Option.getD_some, if_pos hne, hp, set_awaiting,
      Option.map_some]
    rfl

/-- Witness for the amended C9: the malformed-time branch evaluated on a
concrete store with the flag set. -/
theorem c9_error_paths_witness :
    (({ DB.empty with
      user := some { URow.init with awaiting_time := 1 } } : DB).user =
        some { URow.init with awaiting_time := 1 }) ∧
    (({ URow.init with awaiting_time := 1 } : URow).awaiting_time ≠ 0) ∧
    parseHHMM "xx" = none ∧
    on_text "xx" { DB.empty with
      user := some { URow.init with awaiting_time := 1 } } =
      ({ DB.empty with
        user := some { URow.init with awaiting_time := 0 } }, TextOutcome.badTime) := by
  refine ⟨rfl, by decide, rfl, ?_⟩
  exact c9_error_paths.2.2.2 "xx"
    { DB.empty with user := some { URow.init with awaiting_time := 1 } }
    { URow.init with awaiting_time := 1 } rfl (by decide) rfl

end GradeBot
